import Mathlib

/-!
Verification of the distributed lock state machine built on the
spreadsheets.request_queue table.  The embedding models, from the source:

* the request_queue rows (request_queue_id, request_status, request_type,
  process_id, spreadsheet_id) and the partial unique index request_queue_01;
* the searched UPDATE of "Searching for Work" (ORDER BY request_queue_id
  FETCH FIRST ROW ONLY FOR UPDATE SKIP LOCKED, request_queue_id greater
  than the line-in-the-sand value);
* the validation SELECT of "Handling update Requests" (FOR UPDATE NOWAIT,
  SQL state 55P03 modelled as an Except error);
* the group claim UPDATE of "Validation and Grouping Requests";
* the settlement UPDATE of "Progressing Through the Requests"
  (WHERE process_id only, with no status filter);
* commitment control: a worker's uncommitted writes live in its Phase and
  are published only by the settle transition; ROLLBACK and process death
  discard them;
* the sweep controller of "Dealing with Concurrency" and the
  LISTEN then self NOTIFY startup of "Priming the Pump".

Process identifiers (UUIDs in the source) are modelled as naturals drawn
from a fresh counter, which models the assumed collision freedom of v4
UUIDs.  TEXT spreadsheet identifiers are modelled as strings.
-/

/-- Lifecycle status of a request row: the request_status column, constrained
to the four enumerated values. -/
inductive Status where
  | new
  | inProgress
  | complete
  | error
deriving DecidableEq

/-- The request_type column: create establishes a spreadsheet, update modifies
an existing one. -/
inductive ReqType where
  | create
  | update
deriving DecidableEq

/-- One row of spreadsheets.request_queue. -/
structure Row where
  request_queue_id : Nat
  request_status : Status
  request_type : ReqType
  process_id : Option Nat
  spreadsheet_id : String
deriving DecidableEq

/-- A status is terminal once the request has settled to complete or error. -/
def Status.isTerminal : Status → Bool
  | .complete => true
  | .error => true
  | _ => false

/-- Row constructed by the front end INSERT: request_status defaults to new and
process_id is initially NULL. -/
def mkRow (rid : Nat) (rt : ReqType) (sid : String) : Row :=
  ⟨rid, Status.new, rt, none, sid⟩

/-- Predicate of the partial unique index request_queue_01 on
(spreadsheet_id, request_type) WHERE request_type = 'create': an INSERT of a
create request conflicts when any create row for the same spreadsheet already
exists, with no condition on its status. -/
def uniqueIndexConflict (rows : List Row) (sid : String) (rt : ReqType) : Bool :=
  (rt == ReqType.create)
    && rows.any (fun r => (r.spreadsheet_id == sid) && (r.request_type == ReqType.create))

/-- INSERT INTO spreadsheets.request_queue guarded by the unique index. -/
def insertRequest (rows : List Row) (rid : Nat) (sid : String) (rt : ReqType) :
    Except Unit (List Row) :=
  if uniqueIndexConflict rows sid rt then Except.error ()
  else Except.ok (rows ++ [mkRow rid rt sid])

/-- WHERE clause of the subselect in the searched UPDATE of Searching for Work:
request_status = 'new' and request_queue_id greater than the line-in-the-sand
cursor; FOR UPDATE SKIP LOCKED makes rows locked by concurrent transactions
invisible to the scan. -/
def eligibleRow (cursor : Nat) (locked : List Nat) (r : Row) : Bool :=
  (r.request_status == Status.new)
    && decide (cursor < r.request_queue_id)
    && !(locked.contains r.request_queue_id)

/-- ORDER BY request_queue_id FETCH FIRST ROW ONLY: the row with the minimum
request_queue_id. -/
def minById : List Row → Option Row
  | [] => none
  | r :: rs =>
    match minById rs with
    | none => some r
    | some q => if r.request_queue_id ≤ q.request_queue_id then some r else some q

/-- The subselect of the searched UPDATE: first request in new status after the
cursor, skipping rows locked by other transactions. -/
def firstNewRequest (rows : List Row) (locked : List Nat) (cursor : Nat) : Option Row :=
  minById (rows.filter (eligibleRow cursor locked))

/-- SET process_id = $1, request_status = 'in-progress' on one row. -/
def setClaim (pid : Nat) (r : Row) : Row :=
  { r with request_status := Status.inProgress, process_id := some pid }

/-- Apply an update to the row with the given request_queue_id. -/
def updateRow (rows : List Row) (rid : Nat) (f : Row → Row) : List Row :=
  rows.map fun r => if r.request_queue_id = rid then f r else r

/-- The searched UPDATE of Searching for Work with its RETURNING clause: claim
the first new request after the cursor, set it in-progress with the worker's
process identifier, and return the claimed row together with the updated
table; none models the empty result (no more work). -/
def searchForWork (rows : List Row) (locked : List Nat) (pid : Nat) (cursor : Nat) :
    Option (Row × List Row) :=
  match firstNewRequest rows locked cursor with
  | none => none
  | some r => some (setClaim pid r, updateRow rows r.request_queue_id (setClaim pid))

/-- WHERE clause of the validation SELECT of Handling update Requests: the
create row of the same spreadsheet whose status is not yet terminal. -/
def nonTerminalCreate (sid : String) (r : Row) : Bool :=
  (r.spreadsheet_id == sid) && (r.request_type == ReqType.create)
    && !(r.request_status.isTerminal)

/-- The validation SELECT ... FOR UPDATE NOWAIT: Except.error () models the
row lock exception with SQL state 55P03 raised when a matching row is locked
by another in-flight transaction; otherwise the matching rows are returned. -/
def probeCreate (rows : List Row) (locked : List Nat) (sid : String) :
    Except Unit (List Row) :=
  let hits := rows.filter (nonTerminalCreate sid)
  if hits.any (fun r => locked.contains r.request_queue_id) then Except.error ()
  else Except.ok hits

/-- WHERE clause of the group claim subselect: update requests of the same
spreadsheet whose status is not yet terminal. -/
def outstandingUpdate (sid : String) (r : Row) : Bool :=
  (r.spreadsheet_id == sid) && (r.request_type == ReqType.update)
    && !(r.request_status.isTerminal)

/-- The group claim UPDATE of Validation and Grouping Requests: allocate every
outstanding update request of the spreadsheet to the worker's process
identifier in one statement; FOR UPDATE NOWAIT fails the whole statement with
the row lock exception when any member is locked by another transaction.  On
success it returns the updated table and the ids of the claimed group. -/
def claimUpdateGroup (rows : List Row) (locked : List Nat) (pid : Nat) (sid : String) :
    Except Unit (List Row × List Nat) :=
  let grp := rows.filter (outstandingUpdate sid)
  if grp.any (fun r => locked.contains r.request_queue_id) then Except.error ()
  else Except.ok
    (rows.map (fun r => if outstandingUpdate sid r then setClaim pid r else r),
     grp.map (fun r => r.request_queue_id))

/-- The settlement UPDATE of Progressing Through the Requests: set
request_status on every row WHERE process_id = $1; the statement carries no
filter on the current status. -/
def settleRequests (rows : List Row) (pid : Nat) (st : Status) : List Row :=
  rows.map fun r => if r.process_id = some pid then { r with request_status := st } else r

/-- Outcome of the spreadsheet operation: complete on success, error on
failure. -/
def settleStatus (ok : Bool) : Status :=
  if ok then Status.complete else Status.error

/-- In-flight transaction state of one back-end worker.  Commitment control
means the claim updates are tentative: they live here, invisible to other
workers, until the settle transition commits them.  The locks of the phase
are held until commit or rollback. -/
inductive Phase where
  | idle
  | scanned (pid rid : Nat) (sid : String) (rt : ReqType)
  | claimed (pid rid : Nat) (sid : String) (rt : ReqType) (ids : List Nat)
deriving DecidableEq

/-- Row ids locked to a worker's open transaction. -/
def locksOf : Phase → List Nat
  | .idle => []
  | .scanned _ rid _ _ => [rid]
  | .claimed _ _ _ _ ids => ids

/-- Process identifier (the generated UUID) of an open transaction. -/
def phasePid : Phase → Option Nat
  | .idle => none
  | .scanned pid _ _ _ => some pid
  | .claimed pid _ _ _ _ => some pid

/-- All row ids locked by any worker. -/
def allLocks : List Phase → List Nat
  | [] => []
  | p :: ps => locksOf p ++ allLocks ps

/-- Row ids locked by workers other than the one at the given index. -/
def othersLocks : List Phase → Nat → List Nat
  | [], _ => []
  | _ :: ps, 0 => allLocks ps
  | p :: ps, Nat.succ w => locksOf p ++ othersLocks ps w

/-- The table as seen inside a transaction that has tentatively claimed the
given ids: committed rows overlaid with the transaction's own uncommitted
claim updates. -/
def claimView (db : List Row) (pid : Nat) (ids : List Nat) : List Row :=
  db.map fun r => if ids.contains r.request_queue_id then setClaim pid r else r

/-- Global state: the committed table (the hand-off plane), the open
transaction of each worker process, the table's id sequence and the source of
fresh process identifiers. -/
structure Sys where
  db : List Row
  workers : List Phase
  nextId : Nat
  nextPid : Nat
deriving DecidableEq

/-- Start state: empty table (the sequence begins at 1), every worker idle. -/
def initSys (n : Nat) : Sys :=
  ⟨[], List.replicate n Phase.idle, 1, 0⟩

/-- One atomic step of the system.  Front end inserts are enqueueCreate and
enqueueUpdate; the remaining transitions are one worker's protocol: scan
(searched UPDATE, opening a transaction), claimCreate (a create request needs
no validation), validateFail and groupOk and groupFail (Validation and
Grouping Requests, against the worker's own transaction view with the other
workers' locks), settle (settlement UPDATE followed by COMMIT), and crash
(ROLLBACK, or process death with the database manager rolling the open
transaction back automatically).

The scan transition takes the worker's line-in-the-sand cursor as a
parameter: the sweep controller below drives how the cursor evolves, while
the searched UPDATE itself determines which row is claimed for a given
cursor.  The blog describes only the 55P03 exception path of the validation
SELECT; following the spec, the worker also abandons the claim when the
probe returns a non-empty row set (a non-terminal create exists but is not
locked), since the create is then verified not to be complete. -/
inductive Step : Sys → Sys → Prop
  | enqueueCreate (s : Sys) (sid : String)
      (h : uniqueIndexConflict s.db sid ReqType.create = false) :
      Step s { s with db := s.db ++ [mkRow s.nextId ReqType.create sid],
                      nextId := s.nextId + 1 }
  | enqueueUpdate (s : Sys) (sid : String)
      (h : s.db.any (fun r => (r.spreadsheet_id == sid) && (r.request_type == ReqType.create))
             = true) :
      Step s { s with db := s.db ++ [mkRow s.nextId ReqType.update sid],
                      nextId := s.nextId + 1 }
  | scan (s : Sys) (w : Nat) (hw : w < s.workers.length) (cursor : Nat) (r : Row)
      (hidle : s.workers.get ⟨w, hw⟩ = Phase.idle)
      (hfound : firstNewRequest s.db (allLocks s.workers) cursor = some r) :
      Step s { s with
        workers := s.workers.set w
          (Phase.scanned s.nextPid r.request_queue_id r.spreadsheet_id r.request_type),
        nextPid := s.nextPid + 1 }
  | claimCreate (s : Sys) (w : Nat) (hw : w < s.workers.length) (pid rid : Nat) (sid : String)
      (hph : s.workers.get ⟨w, hw⟩ = Phase.scanned pid rid sid ReqType.create) :
      Step s { s with workers := s.workers.set w (Phase.claimed pid rid sid ReqType.create [rid]) }
  | validateFail (s : Sys) (w : Nat) (hw : w < s.workers.length) (pid rid : Nat) (sid : String)
      (hph : s.workers.get ⟨w, hw⟩ = Phase.scanned pid rid sid ReqType.update)
      (hprobe : probeCreate (claimView s.db pid [rid]) (othersLocks s.workers w) sid
                  ≠ Except.ok []) :
      Step s { s with workers := s.workers.set w Phase.idle }
  | groupOk (s : Sys) (w : Nat) (hw : w < s.workers.length) (pid rid : Nat) (sid : String)
      (pr : List Row × List Nat)
      (hph : s.workers.get ⟨w, hw⟩ = Phase.scanned pid rid sid ReqType.update)
      (hprobe : probeCreate (claimView s.db pid [rid]) (othersLocks s.workers w) sid
                  = Except.ok [])
      (hgrp : claimUpdateGroup (claimView s.db pid [rid]) (othersLocks s.workers w) pid sid
                = Except.ok pr) :
      Step s { s with workers := s.workers.set w (Phase.claimed pid rid sid ReqType.update pr.2) }
  | groupFail (s : Sys) (w : Nat) (hw : w < s.workers.length) (pid rid : Nat) (sid : String)
      (hph : s.workers.get ⟨w, hw⟩ = Phase.scanned pid rid sid ReqType.update)
      (hprobe : probeCreate (claimView s.db pid [rid]) (othersLocks s.workers w) sid
                  = Except.ok [])
      (hgrp : claimUpdateGroup (claimView s.db pid [rid]) (othersLocks s.workers w) pid sid
                = Except.error ()) :
      Step s { s with workers := s.workers.set w Phase.idle }
  | settle (s : Sys) (w : Nat) (hw : w < s.workers.length) (pid rid : Nat) (sid : String)
      (rt : ReqType) (ids : List Nat) (ok : Bool)
      (hph : s.workers.get ⟨w, hw⟩ = Phase.claimed pid rid sid rt ids) :
      Step s { s with db := settleRequests (claimView s.db pid ids) pid (settleStatus ok),
                      workers := s.workers.set w Phase.idle }
  | crash (s : Sys) (w : Nat) (hw : w < s.workers.length) :
      Step s { s with workers := s.workers.set w Phase.idle }

/-- States reachable from a start state with any number of workers. -/
inductive Reachable : Sys → Prop
  | init (n : Nat) : Reachable (initSys n)
  | step {s t : Sys} : Reachable s → Step s t → Reachable t

/-- Inductive invariant of the system, proved below for every reachable
state. -/
structure SysInv (s : Sys) : Prop where
  nextIdPos : 0 < s.nextId
  idPos : ∀ r ∈ s.db, 0 < r.request_queue_id
  idLt : ∀ r ∈ s.db, r.request_queue_id < s.nextId
  idNodup : (s.db.map Row.request_queue_id).Nodup
  noInProg : ∀ r ∈ s.db, r.request_status ≠ Status.inProgress
  dbPidLt : ∀ r ∈ s.db, ∀ p, r.process_id = some p → p < s.nextPid
  phasePidLt : ∀ w (hw : w < s.workers.length) p,
    phasePid (s.workers.get ⟨w, hw⟩) = some p → p < s.nextPid
  phasePidFresh : ∀ w (hw : w < s.workers.length) p,
    phasePid (s.workers.get ⟨w, hw⟩) = some p → ∀ r ∈ s.db, r.process_id ≠ some p
  phasePidDistinct : ∀ w1 (hw1 : w1 < s.workers.length) w2 (hw2 : w2 < s.workers.length),
    w1 ≠ w2 → ∀ p, phasePid (s.workers.get ⟨w1, hw1⟩) = some p →
      phasePid (s.workers.get ⟨w2, hw2⟩) ≠ some p
  locksDisj : ∀ w1 (hw1 : w1 < s.workers.length) w2 (hw2 : w2 < s.workers.length),
    w1 ≠ w2 → ∀ rid, rid ∈ locksOf (s.workers.get ⟨w1, hw1⟩) →
      rid ∉ locksOf (s.workers.get ⟨w2, hw2⟩)
  locksNew : ∀ w (hw : w < s.workers.length) rid, rid ∈ locksOf (s.workers.get ⟨w, hw⟩) →
    ∃ r ∈ s.db, r.request_queue_id = rid ∧ r.request_status = Status.new
  scannedWf : ∀ w (hw : w < s.workers.length) pid rid sid rt,
    s.workers.get ⟨w, hw⟩ = Phase.scanned pid rid sid rt →
    ∃ r ∈ s.db, r.request_queue_id = rid ∧ r.spreadsheet_id = sid ∧
      r.request_type = rt ∧ r.request_status = Status.new
  claimedUpdWf : ∀ w (hw : w < s.workers.length) pid rid sid ids,
    s.workers.get ⟨w, hw⟩ = Phase.claimed pid rid sid ReqType.update ids →
    ∃ r ∈ s.db, r.spreadsheet_id = sid ∧ r.request_type = ReqType.update
  depOrder : ∀ w (hw : w < s.workers.length) pid rid sid ids,
    s.workers.get ⟨w, hw⟩ = Phase.claimed pid rid sid ReqType.update ids →
    ∀ q ∈ s.db, q.spreadsheet_id = sid → q.request_type = ReqType.create →
      q.request_status.isTerminal = true
  updHasCreate : ∀ r ∈ s.db, r.request_type = ReqType.update →
    ∃ q ∈ s.db, q.spreadsheet_id = r.spreadsheet_id ∧ q.request_type = ReqType.create

/-- Mode of the sweep controller of Dealing with Concurrency. -/
inductive CtrlMode where
  | scanning
  | idle
deriving DecidableEq

/-- Sweep controller state: the line-in-the-sand cursor and the count of
requests found and processed since the cursor was last reset. -/
structure Ctrl where
  mode : CtrlMode
  cursor : Nat
  claims : Nat
deriving DecidableEq

/-- Events driving the sweep controller: a NOTIFY wakeup, a successful claim
of the row with the given id, a skip of the row with the given id after a row
lock exception, and an empty result of the searched UPDATE. -/
inductive CtrlEv where
  | wake
  | claimOk (rid : Nat)
  | skip (rid : Nat)
  | exhausted
deriving DecidableEq

/-- Sweep controller of Dealing with Concurrency: on a successful claim the
next search begins after the id found previously; on a skip the
line-in-the-sand advances to the id already looked at; when the search
returns no row, the cursor resets to its initial value 0 and another full
sweep runs if any work was performed, otherwise the worker goes idle and
waits for a NOTIFY. -/
def ctrlStep (c : Ctrl) (e : CtrlEv) : Ctrl :=
  match c.mode, e with
  | CtrlMode.idle, CtrlEv.wake => ⟨CtrlMode.scanning, 0, 0⟩
  | CtrlMode.idle, _ => c
  | CtrlMode.scanning, CtrlEv.claimOk rid => ⟨CtrlMode.scanning, rid, c.claims + 1⟩
  | CtrlMode.scanning, CtrlEv.skip rid => ⟨CtrlMode.scanning, rid, c.claims⟩
  | CtrlMode.scanning, CtrlEv.exhausted =>
      if c.claims = 0 then ⟨CtrlMode.idle, c.cursor, c.claims⟩
      else ⟨CtrlMode.scanning, 0, 0⟩
  | CtrlMode.scanning, CtrlEv.wake => c

/-- Statements the back-end issues against the notification channel at
start-up. -/
inductive WakeAct where
  | listen
  | notify
deriving DecidableEq

/-- Start-up sequence of Priming the Pump: the LISTEN statement is executed
first, then the back-end performs the self NOTIFY on the same channel. -/
def startupSequence : List WakeAct := [WakeAct.listen, WakeAct.notify]

/-- The notification channel is lossy: a NOTIFY is delivered only to clients
already listening when it is issued.  This fold tracks whether a LISTEN is
active and whether any NOTIFY of the sequence was delivered to this
process. -/
def selfNotifyDelivered (seq : List WakeAct) : Bool :=
  (seq.foldl
    (fun st a =>
      match a with
      | WakeAct.listen => (true, st.2)
      | WakeAct.notify => (st.1, st.2 || st.1))
    (false, false)).2

/-- Committed table of one awakening after its first iteration: the create
request of spreadsheet s was claimed with the process identifier 7 generated
at the awakening, settled complete, and committed; a second, update request
of the same spreadsheet is still new. -/
def pidReuseDb : List Row :=
  [⟨1, Status.complete, ReqType.create, some 7, "s"⟩,
   ⟨2, Status.new, ReqType.update, none, "s"⟩]

/-- Pointwise form of a worker's tentative claim overlay. -/
def claimViewRow (pid : Nat) (ids : List Nat) (r : Row) : Row :=
  if ids.contains r.request_queue_id then setClaim pid r else r

/-- Pointwise effect, on one committed row, of a worker's claim overlay
followed by the settlement UPDATE at COMMIT time. -/
def settleRow (pid : Nat) (ids : List Nat) (st : Status) (r : Row) : Row :=
  if ids.contains r.request_queue_id then
    { r with request_status := st, process_id := some pid }
  else if r.process_id = some pid then { r with request_status := st }
  else r

/-- Concrete rows of the executions evaluated below: one create and one
update request of the spreadsheet t, and the create row as committed after
its settlement by the process identifier 0. -/
def exRow1 : Row := ⟨1, Status.new, ReqType.create, none, "t"⟩

def exRow1done : Row := ⟨1, Status.complete, ReqType.create, some 0, "t"⟩

def exRow2 : Row := ⟨2, Status.new, ReqType.update, none, "t"⟩

/-- One worker has scanned and tentatively claimed the create request. -/
def exSysScanned : Sys := ⟨[exRow1], [Phase.scanned 0 1 "t" ReqType.create], 2, 1⟩

/-- The create request is claimed and ready to execute. -/
def exSysClaimed : Sys := ⟨[exRow1], [Phase.claimed 0 1 "t" ReqType.create [1]], 2, 1⟩

/-- The create request has settled complete; an update request for the same
spreadsheet has been enqueued. -/
def exSysBoth : Sys := ⟨[exRow1done, exRow2], [Phase.idle], 3, 1⟩

/-- The worker has scanned the update request of the settled spreadsheet. -/
def exSysScanned2 : Sys := ⟨[exRow1done, exRow2], [Phase.scanned 1 2 "t" ReqType.update], 3, 2⟩

/-- The worker holds the validated group claim on the update requests. -/
def exSysGroup : Sys := ⟨[exRow1done, exRow2], [Phase.claimed 1 2 "t" ReqType.update [2]], 3, 2⟩

/-- Two workers; the first has scanned the create request, the second is
idle and races for the same row. -/
def exSysTwo : Sys := ⟨[exRow1], [Phase.scanned 0 1 "t" ReqType.create, Phase.idle], 2, 1⟩

theorem claimView_eq_map (db : List Row) (pid : Nat) (ids : List Nat) :
    claimView db pid ids = db.map (claimViewRow pid ids) := rfl

theorem claimViewRow_id (pid : Nat) (ids : List Nat) (r : Row) :
    (claimViewRow pid ids r).request_queue_id = r.request_queue_id := by
  unfold claimViewRow; split <;> rfl

theorem claimViewRow_sid (pid : Nat) (ids : List Nat) (r : Row) :
    (claimViewRow pid ids r).spreadsheet_id = r.spreadsheet_id := by
  unfold claimViewRow; split <;> rfl

theorem claimViewRow_type (pid : Nat) (ids : List Nat) (r : Row) :
    (claimViewRow pid ids r).request_type = r.request_type := by
  unfold claimViewRow; split <;> rfl

theorem claimViewRow_of_not_mem (pid : Nat) (ids : List Nat) (r : Row)
    (h : r.request_queue_id ∉ ids) : claimViewRow pid ids r = r := by
  simp [claimViewRow, List.elem_iff, h]

theorem claimViewRow_of_mem (pid : Nat) (ids : List Nat) (r : Row)
    (h : r.request_queue_id ∈ ids) : claimViewRow pid ids r = setClaim pid r := by
  simp [claimViewRow, List.elem_iff, h]

theorem settleRow_id (pid : Nat) (ids : List Nat) (st : Status) (r : Row) :
    (settleRow pid ids st r).request_queue_id = r.request_queue_id := by
  unfold settleRow; split
  · rfl
  · split <;> rfl

theorem settleRow_sid (pid : Nat) (ids : List Nat) (st : Status) (r : Row) :
    (settleRow pid ids st r).spreadsheet_id = r.spreadsheet_id := by
  unfold settleRow; split
  · rfl
  · split <;> rfl

theorem settleRow_type (pid : Nat) (ids : List Nat) (st : Status) (r : Row) :
    (settleRow pid ids st r).request_type = r.request_type := by
  unfold settleRow; split
  · rfl
  · split <;> rfl

theorem settleRow_status (pid : Nat) (ids : List Nat) (st : Status) (r : Row) :
    (settleRow pid ids st r).request_status = st ∨
      (settleRow pid ids st r).request_status = r.request_status := by
  unfold settleRow; split
  · exact Or.inl rfl
  · split
    · exact Or.inl rfl
    · exact Or.inr rfl

theorem settleRow_pid_cases (pid : Nat) (ids : List Nat) (st : Status) (r : Row) :
    (settleRow pid ids st r).process_id = some pid ∨
      (settleRow pid ids st r).process_id = r.process_id := by
  unfold settleRow; split
  · exact Or.inl rfl
  · split <;> exact Or.inr rfl

theorem settleRow_of_untouched (pid : Nat) (ids : List Nat) (st : Status) (r : Row)
    (h1 : r.request_queue_id ∉ ids) (h2 : r.process_id ≠ some pid) :
    settleRow pid ids st r = r := by
  simp [settleRow, List.elem_iff, h1, h2]

theorem settleRow_of_mem (pid : Nat) (ids : List Nat) (st : Status) (r : Row)
    (h : r.request_queue_id ∈ ids) :
    settleRow pid ids st r = { r with request_status := st, process_id := some pid } := by
  simp [settleRow, List.elem_iff, h]

theorem settle_claimView_eq_map (db : List Row) (pid : Nat) (ids : List Nat) (st : Status) :
    settleRequests (claimView db pid ids) pid st = db.map (settleRow pid ids st) := by
  rw [claimView_eq_map]
  unfold settleRequests
  rw [List.map_map]
  congr 1
  funext r
  simp only [Function.comp_apply]
  by_cases h : r.request_queue_id ∈ ids
  · simp [settleRow, setClaim, claimViewRow, h]
  · simp [settleRow, setClaim, claimViewRow, h]

theorem eligibleRow_iff (cursor : Nat) (locked : List Nat) (r : Row) :
    eligibleRow cursor locked r = true ↔
      r.request_status = Status.new ∧ cursor < r.request_queue_id ∧
        r.request_queue_id ∉ locked := by
  simp [eligibleRow, List.elem_iff, and_assoc]

theorem nonTerminalCreate_iff (sid : String) (r : Row) :
    nonTerminalCreate sid r = true ↔
      r.spreadsheet_id = sid ∧ r.request_type = ReqType.create ∧
        r.request_status.isTerminal = false := by
  simp [nonTerminalCreate, and_assoc]

theorem outstandingUpdate_iff (sid : String) (r : Row) :
    outstandingUpdate sid r = true ↔
      r.spreadsheet_id = sid ∧ r.request_type = ReqType.update ∧
        r.request_status.isTerminal = false := by
  simp [outstandingUpdate, and_assoc]

theorem uniqueIndexConflict_create_iff (rows : List Row) (sid : String) :
    uniqueIndexConflict rows sid ReqType.create = true ↔
      ∃ r ∈ rows, r.spreadsheet_id = sid ∧ r.request_type = ReqType.create := by
  simp [uniqueIndexConflict, List.any_eq_true]

theorem minById_eq_none : ∀ {l : List Row}, minById l = none ↔ l = [] := by
  intro l
  cases l with
  | nil => simp [minById]
  | cons r rs =>
    simp only [minById]
    cases hrec : minById rs with
    | none => simp
    | some q =>
      change (if r.request_queue_id ≤ q.request_queue_id then some r else some q) = none ↔ r :: rs = []
      split <;> simp

theorem minById_mem : ∀ {l : List Row} {m : Row}, minById l = some m → m ∈ l := by
  intro l
  induction l with
  | nil => intro m h; simp [minById] at h
  | cons r rs ih =>
    intro m h
    simp only [minById] at h
    cases hrec : minById rs with
    | none =>
      rw [hrec] at h
      injection h with h
      subst h
      exact List.mem_cons_self r rs
    | some q =>
      rw [hrec] at h
      simp only at h
      split at h
      · injection h with h
        subst h
        exact List.mem_cons_self r rs
      · injection h with h
        subst h
        exact List.mem_cons_of_mem r (ih hrec)

theorem minById_le : ∀ {l : List Row} {m : Row}, minById l = some m →
    ∀ q ∈ l, m.request_queue_id ≤ q.request_queue_id := by
  intro l
  induction l with
  | nil => intro m h; simp [minById] at h
  | cons r rs ih =>
    intro m h q hq
    simp only [minById] at h
    cases hrec : minById rs with
    | none =>
      rw [hrec] at h
      injection h with h
      subst h
      have hrs : rs = [] := minById_eq_none.mp hrec
      subst hrs
      simp at hq
      subst hq
      exact Nat.le_refl _
    | some p =>
      rw [hrec] at h
      simp only at h
      split at h
      · rename_i hle
        injection h with h
        subst h
        rcases List.mem_cons.mp hq with hq | hq
        · subst hq; exact Nat.le_refl _
        · exact Nat.le_trans hle (ih hrec q hq)
      · rename_i hle
        injection h with h
        subst h
        rcases List.mem_cons.mp hq with hq | hq
        · subst hq; exact Nat.le_of_lt (Nat.lt_of_not_le hle)
        · exact ih hrec q hq

theorem minById_eq_some_of : ∀ {l : List Row} {m : Row}, m ∈ l →
    (∀ q ∈ l, m.request_queue_id ≤ q.request_queue_id) →
    (∀ q ∈ l, q.request_queue_id = m.request_queue_id → q = m) →
    minById l = some m := by
  intro l
  induction l with
  | nil => intro m hm; simp at hm
  | cons r rs ih =>
    intro m hm hle huniq
    simp only [minById]
    cases hrec : minById rs with
    | none =>
      have hrs : rs = [] := minById_eq_none.mp hrec
      subst hrs
      simp at hm
      subst hm
      rfl
    | some p =>
      have hp : p ∈ rs := minById_mem hrec
      have hple : ∀ q ∈ rs, p.request_queue_id ≤ q.request_queue_id := minById_le hrec
      change (if r.request_queue_id ≤ p.request_queue_id then some r else some p) = some m
      rcases List.mem_cons.mp hm with hm | hm
      · subst hm
        rw [if_pos (hle p (List.mem_cons_of_mem _ hp))]
      · have h1 : m.request_queue_id ≤ p.request_queue_id := hle p (List.mem_cons_of_mem _ hp)
        have h2 : p.request_queue_id ≤ m.request_queue_id := hple m hm
        have hpm : p = m := huniq p (List.mem_cons_of_mem _ hp) (Nat.le_antisymm h2 h1)
        by_cases hc : r.request_queue_id ≤ p.request_queue_id
        · rw [if_pos hc]
          have hmr : m.request_queue_id ≤ r.request_queue_id := hle r (List.mem_cons_self r rs)
          have hid : r.request_queue_id = m.request_queue_id :=
            Nat.le_antisymm (hpm ▸ hc) hmr
          rw [huniq r (List.mem_cons_self r rs) hid]
        · rw [if_neg hc]
          rw [hpm]

theorem firstNewRequest_some {rows : List Row} {locked : List Nat} {cursor : Nat} {r : Row}
    (h : firstNewRequest rows locked cursor = some r) :
    r ∈ rows ∧ r.request_status = Status.new ∧ cursor < r.request_queue_id ∧
      r.request_queue_id ∉ locked ∧
      ∀ q ∈ rows, q.request_status = Status.new → cursor < q.request_queue_id →
        q.request_queue_id ∉ locked → r.request_queue_id ≤ q.request_queue_id := by
  unfold firstNewRequest at h
  have hmem := minById_mem h
  have hle := minById_le h
  have hr := (List.mem_filter.mp hmem)
  have he := (eligibleRow_iff cursor locked r).mp hr.2
  refine ⟨hr.1, he.1, he.2.1, he.2.2, ?_⟩
  intro q hq h1 h2 h3
  exact hle q (List.mem_filter.mpr ⟨hq, (eligibleRow_iff cursor locked q).mpr ⟨h1, h2, h3⟩⟩)

theorem firstNewRequest_none {rows : List Row} {locked : List Nat} {cursor : Nat} :
    firstNewRequest rows locked cursor = none ↔
      ∀ q ∈ rows, ¬(q.request_status = Status.new ∧ cursor < q.request_queue_id ∧
        q.request_queue_id ∉ locked) := by
  unfold firstNewRequest
  rw [minById_eq_none, List.filter_eq_nil_iff]
  constructor
  · intro h q hq hcon
    exact h q hq ((eligibleRow_iff cursor locked q).mpr hcon)
  · intro h q hq hcon
    exact h q hq ((eligibleRow_iff cursor locked q).mp hcon)

theorem mem_allLocks : ∀ {ws : List Phase} {rid : Nat},
    rid ∈ allLocks ws ↔ ∃ j, ∃ hj : j < ws.length, rid ∈ locksOf (ws.get ⟨j, hj⟩) := by
  intro ws
  induction ws with
  | nil => intro rid; simp [allLocks]
  | cons p ps ih =>
    intro rid
    simp only [allLocks, List.mem_append]
    constructor
    · intro h
      rcases h with h | h
      · exact ⟨0, Nat.succ_pos _, h⟩
      · rcases ih.mp h with ⟨j, hj, hmem⟩
        exact ⟨j + 1, Nat.succ_lt_succ hj, hmem⟩
    · rintro ⟨j, hj, hmem⟩
      cases j with
      | zero => exact Or.inl hmem
      | succ j => exact Or.inr (ih.mpr ⟨j, Nat.lt_of_succ_lt_succ hj, hmem⟩)

theorem mem_othersLocks : ∀ {ws : List Phase} {w rid : Nat},
    rid ∈ othersLocks ws w ↔
      ∃ j, ∃ hj : j < ws.length, j ≠ w ∧ rid ∈ locksOf (ws.get ⟨j, hj⟩) := by
  intro ws
  induction ws with
  | nil => intro w rid; simp [othersLocks]
  | cons p ps ih =>
    intro w rid
    cases w with
    | zero =>
      simp only [othersLocks]
      rw [mem_allLocks]
      constructor
      · rintro ⟨j, hj, hmem⟩
        exact ⟨j + 1, Nat.succ_lt_succ hj, Nat.succ_ne_zero j, hmem⟩
      · rintro ⟨j, hj, hne, hmem⟩
        cases j with
        | zero => exact absurd rfl hne
        | succ j => exact ⟨j, Nat.lt_of_succ_lt_succ hj, hmem⟩
    | succ w =>
      simp only [othersLocks, List.mem_append]
      constructor
      · intro h
        rcases h with h | h
        · exact ⟨0, Nat.succ_pos _, Nat.noConfusion, h⟩
        · rcases ih.mp h with ⟨j, hj, hne, hmem⟩
          exact ⟨j + 1, Nat.succ_lt_succ hj, fun hc => hne (Nat.succ_injective hc), hmem⟩
      · rintro ⟨j, hj, hne, hmem⟩
        cases j with
        | zero => exact Or.inl hmem
        | succ j =>
          exact Or.inr (ih.mpr ⟨j, Nat.lt_of_succ_lt_succ hj,
            fun hc => hne (by rw [hc]), hmem⟩)

theorem setClaim_id (pid : Nat) (r : Row) :
    (setClaim pid r).request_queue_id = r.request_queue_id := rfl

theorem setClaim_sid (pid : Nat) (r : Row) :
    (setClaim pid r).spreadsheet_id = r.spreadsheet_id := rfl

theorem setClaim_type (pid : Nat) (r : Row) :
    (setClaim pid r).request_type = r.request_type := rfl

theorem setClaim_status (pid : Nat) (r : Row) :
    (setClaim pid r).request_status = Status.inProgress := rfl

theorem setClaim_pid (pid : Nat) (r : Row) :
    (setClaim pid r).process_id = some pid := rfl

theorem probeCreate_ok_nil_iff {rows : List Row} {locked : List Nat} {sid : String} :
    probeCreate rows locked sid = Except.ok [] ↔
      ∀ r ∈ rows, nonTerminalCreate sid r = false := by
  unfold probeCreate
  simp only
  split
  · constructor
    · intro h; cases h
    · intro h
      rename_i hany
      rw [List.any_eq_true] at hany
      rcases hany with ⟨r, hr, _⟩
      have := h r (List.mem_filter.mp hr).1
      rw [(List.mem_filter.mp hr).2] at this
      cases this
  · constructor
    · intro h
      injection h with h
      intro r hr
      cases hnt : nonTerminalCreate sid r
      · rfl
      · exact absurd (List.filter_eq_nil_iff.mp h r hr) (by simp [hnt])
    · intro h
      have : rows.filter (nonTerminalCreate sid) = [] :=
        List.filter_eq_nil_iff.mpr (fun r hr => by simp [h r hr])
      rw [this]

theorem claimUpdateGroup_error_iff {rows : List Row} {locked : List Nat} {pid : Nat}
    {sid : String} :
    claimUpdateGroup rows locked pid sid = Except.error () ↔
      ∃ r ∈ rows, outstandingUpdate sid r = true ∧ r.request_queue_id ∈ locked := by
  unfold claimUpdateGroup
  simp only
  split
  · rename_i hany
    rw [List.any_eq_true] at hany
    rcases hany with ⟨r, hr, hlock⟩
    simp only [eq_self_iff_true, true_iff]
    exact ⟨r, (List.mem_filter.mp hr).1, (List.mem_filter.mp hr).2,
      List.elem_iff.mp hlock⟩
  · rename_i hany
    constructor
    · intro h; cases h
    · rintro ⟨r, hr, hout, hlock⟩
      exact absurd (List.any_eq_true.mpr
        ⟨r, List.mem_filter.mpr ⟨hr, hout⟩, List.elem_iff.mpr hlock⟩) hany

theorem claimUpdateGroup_ok {rows : List Row} {locked : List Nat} {pid : Nat}
    {sid : String} {pr : List Row × List Nat}
    (h : claimUpdateGroup rows locked pid sid = Except.ok pr) :
    (∀ r ∈ rows, outstandingUpdate sid r = true → r.request_queue_id ∉ locked) ∧
    pr.2 = (rows.filter (outstandingUpdate sid)).map (fun r => r.request_queue_id) ∧
    pr.1 = rows.map (fun r => if outstandingUpdate sid r then setClaim pid r else r) := by
  unfold claimUpdateGroup at h
  simp only at h
  split at h
  · cases h
  · rename_i hany
    injection h with h
    refine ⟨?_, ?_, ?_⟩
    · intro r hr hout hlock
      exact absurd (List.any_eq_true.mpr
        ⟨r, List.mem_filter.mpr ⟨hr, hout⟩, List.elem_iff.mpr hlock⟩) hany
    · rw [← h]
    · rw [← h]

theorem mem_groupIds {rows : List Row} {sid : String} {rid : Nat} :
    rid ∈ (rows.filter (outstandingUpdate sid)).map (fun r => r.request_queue_id) ↔
      ∃ r ∈ rows, outstandingUpdate sid r = true ∧ r.request_queue_id = rid := by
  rw [List.mem_map]
  constructor
  · rintro ⟨r, hr, hid⟩
    exact ⟨r, (List.mem_filter.mp hr).1, (List.mem_filter.mp hr).2, hid⟩
  · rintro ⟨r, hr, hout, hid⟩
    exact ⟨r, List.mem_filter.mpr ⟨hr, hout⟩, hid⟩

theorem settleStatus_terminal (ok : Bool) : (settleStatus ok).isTerminal = true := by
  cases ok <;> rfl

theorem settleStatus_ne_inProgress (ok : Bool) : settleStatus ok ≠ Status.inProgress := by
  cases ok <;> simp [settleStatus]

theorem locksOf_mem_allLocks {ws : List Phase} {w : Nat} (hw : w < ws.length) {rid : Nat}
    (h : rid ∈ locksOf (ws.get ⟨w, hw⟩)) : rid ∈ allLocks ws :=
  mem_allLocks.mpr ⟨w, hw, h⟩

theorem mem_claimView_iff {db : List Row} {pid : Nat} {ids : List Nat} {q : Row} :
    q ∈ claimView db pid ids ↔ ∃ r ∈ db, claimViewRow pid ids r = q := by
  rw [claimView_eq_map, List.mem_map]

theorem sysInv_init (n : Nat) : SysInv (initSys n) := by
  have hget : ∀ j (hj : j < (initSys n).workers.length),
      (initSys n).workers.get ⟨j, hj⟩ = Phase.idle := by
    intro j hj
    exact List.get_replicate _ _
  refine ⟨Nat.one_pos, ?_, ?_, ?_, ?_, ?_, ?_, ?_, ?_, ?_, ?_, ?_, ?_, ?_, ?_⟩
  · intro r hr; exact absurd hr (List.not_mem_nil r)
  · intro r hr; exact absurd hr (List.not_mem_nil r)
  · simp [initSys]
  · intro r hr; exact absurd hr (List.not_mem_nil r)
  · intro r hr; exact absurd hr (List.not_mem_nil r)
  · intro w hw p hp
    rw [hget w hw] at hp
    simp [phasePid] at hp
  · intro w hw p hp
    rw [hget w hw] at hp
    simp [phasePid] at hp
  · intro w1 hw1 w2 hw2 hne p hp1 hp2
    rw [hget w1 hw1] at hp1
    simp [phasePid] at hp1
  · intro w1 hw1 w2 hw2 hne rid h1 h2
    rw [hget w1 hw1] at h1
    simp [locksOf] at h1
  · intro w hw rid h
    rw [hget w hw] at h
    simp [locksOf] at h
  · intro w hw pid rid sid rt h
    rw [hget w hw] at h
    exact Phase.noConfusion h
  · intro w hw pid rid sid ids h
    rw [hget w hw] at h
    exact Phase.noConfusion h
  · intro w hw pid rid sid ids h
    rw [hget w hw] at h
    exact Phase.noConfusion h
  · intro r hr; exact absurd hr (List.not_mem_nil r)

theorem sysInv_set_idle {s : Sys} (hI : SysInv s) (w : Nat) :
    SysInv { s with workers := s.workers.set w Phase.idle } := by
  have hlen : (s.workers.set w Phase.idle).length = s.workers.length := List.length_set _ _ _
  have hget : ∀ j (hj : j < (s.workers.set w Phase.idle).length),
      (s.workers.set w Phase.idle).get ⟨j, hj⟩ = Phase.idle ∨
      ∃ hj2 : j < s.workers.length,
        (s.workers.set w Phase.idle).get ⟨j, hj⟩ = s.workers.get ⟨j, hj2⟩ := by
    intro j hj
    by_cases hjw : j = w
    · subst hjw
      exact Or.inl (List.get_set_eq hj)
    · exact Or.inr ⟨hlen ▸ hj, List.get_set_ne (fun hc => hjw hc.symm) hj⟩
  refine ⟨hI.nextIdPos, hI.idPos, hI.idLt, hI.idNodup, hI.noInProg, hI.dbPidLt,
    ?_, ?_, ?_, ?_, ?_, ?_, ?_, ?_, hI.updHasCreate⟩
  · intro j hj p hp
    rcases hget j hj with h | ⟨hj2, h⟩
    · rw [h] at hp; cases hp
    · rw [h] at hp; exact hI.phasePidLt j hj2 p hp
  · intro j hj p hp
    rcases hget j hj with h | ⟨hj2, h⟩
    · rw [h] at hp; cases hp
    · rw [h] at hp; exact hI.phasePidFresh j hj2 p hp
  · intro w1 hw1 w2 hw2 hne p hp1 hp2
    rcases hget w1 hw1 with h1 | ⟨hj1, h1⟩
    · rw [h1] at hp1; cases hp1
    · rcases hget w2 hw2 with h2 | ⟨hj2, h2⟩
      · rw [h2] at hp2; cases hp2
      · rw [h1] at hp1; rw [h2] at hp2
        exact hI.phasePidDistinct w1 hj1 w2 hj2 hne p hp1 hp2
  · intro w1 hw1 w2 hw2 hne rid h1 h2
    rcases hget w1 hw1 with h | ⟨hj1, hh1⟩
    · rw [h] at h1; cases h1
    · rcases hget w2 hw2 with h | ⟨hj2, hh2⟩
      · rw [h] at h2; cases h2
      · rw [hh1] at h1; rw [hh2] at h2
        exact hI.locksDisj w1 hj1 w2 hj2 hne rid h1 h2
  · intro j hj rid h
    rcases hget j hj with hh | ⟨hj2, hh⟩
    · rw [hh] at h; cases h
    · rw [hh] at h; exact hI.locksNew j hj2 rid h
  · intro j hj pid rid sid rt h
    rcases hget j hj with hh | ⟨hj2, hh⟩
    · rw [hh] at h; cases h
    · rw [hh] at h; exact hI.scannedWf j hj2 pid rid sid rt h
  · intro j hj pid rid sid ids h
    rcases hget j hj with hh | ⟨hj2, hh⟩
    · rw [hh] at h; cases h
    · rw [hh] at h; exact hI.claimedUpdWf j hj2 pid rid sid ids h
  · intro j hj pid rid sid ids h
    rcases hget j hj with hh | ⟨hj2, hh⟩
    · rw [hh] at h; cases h
    · rw [hh] at h; exact hI.depOrder j hj2 pid rid sid ids h

theorem uniqueIndexConflict_false_no_create {rows : List Row} {sid : String}
    (h : uniqueIndexConflict rows sid ReqType.create = false) :
    ∀ r ∈ rows, ¬(r.spreadsheet_id = sid ∧ r.request_type = ReqType.create) := by
  intro r hr hcon
  have : uniqueIndexConflict rows sid ReqType.create = true :=
    (uniqueIndexConflict_create_iff rows sid).mpr ⟨r, hr, hcon⟩
  rw [h] at this
  cases this

theorem sysInv_enqueue_aux {s : Sys} (hI : SysInv s) (rt : ReqType) (sid : String)
    (hdep : ∀ w (hw : w < s.workers.length) pid rid sid0 ids,
      s.workers.get ⟨w, hw⟩ = Phase.claimed pid rid sid0 ReqType.update ids →
      ¬((mkRow s.nextId rt sid).spreadsheet_id = sid0 ∧
        (mkRow s.nextId rt sid).request_type = ReqType.create))
    (hupd : rt = ReqType.update →
      ∃ q ∈ s.db, q.spreadsheet_id = sid ∧ q.request_type = ReqType.create) :
    SysInv { s with db := s.db ++ [mkRow s.nextId rt sid], nextId := s.nextId + 1 } := by
  have hmem : ∀ r : Row, r ∈ s.db ++ [mkRow s.nextId rt sid] ↔
      r ∈ s.db ∨ r = mkRow s.nextId rt sid := by
    intro r
    rw [List.mem_append, List.mem_singleton]
  refine ⟨?_, ?_, ?_, ?_, ?_, ?_, ?_, ?_, hI.phasePidDistinct, hI.locksDisj, ?_, ?_, ?_, ?_, ?_⟩
  · exact Nat.lt_trans hI.nextIdPos (Nat.lt_succ_self _)
  · intro r hr
    rcases (hmem r).mp hr with hr | hr
    · exact hI.idPos r hr
    · rw [hr]; exact hI.nextIdPos
  · intro r hr
    rcases (hmem r).mp hr with hr | hr
    · exact Nat.lt_trans (hI.idLt r hr) (Nat.lt_succ_self _)
    · rw [hr]; exact Nat.lt_succ_self _
  · rw [List.map_append]
    rw [List.nodup_append]
    refine ⟨hI.idNodup, List.nodup_singleton _, ?_⟩
    intro a ha hb
    rw [List.mem_map] at ha
    rcases ha with ⟨r, hr, hid⟩
    simp only [List.map_cons, List.map_nil, List.mem_singleton] at hb
    rw [← hid] at hb
    exact absurd (hb ▸ hI.idLt r hr) (Nat.lt_irrefl _)
  · intro r hr
    rcases (hmem r).mp hr with hr | hr
    · exact hI.noInProg r hr
    · rw [hr]; intro hcon; cases hcon
  · intro r hr p hp
    rcases (hmem r).mp hr with hr | hr
    · exact hI.dbPidLt r hr p hp
    · rw [hr] at hp; cases hp
  · exact hI.phasePidLt
  · intro w hw p hp r hr
    rcases (hmem r).mp hr with hr | hr
    · exact hI.phasePidFresh w hw p hp r hr
    · rw [hr]; intro hcon; cases hcon
  · intro w hw rid h
    rcases hI.locksNew w hw rid h with ⟨r, hr, hid, hst⟩
    exact ⟨r, List.mem_append_left _ hr, hid, hst⟩
  · intro w hw pid rid sid0 rt0 h
    rcases hI.scannedWf w hw pid rid sid0 rt0 h with ⟨r, hr, hprops⟩
    exact ⟨r, List.mem_append_left _ hr, hprops⟩
  · intro w hw pid rid sid0 ids h
    rcases hI.claimedUpdWf w hw pid rid sid0 ids h with ⟨r, hr, hprops⟩
    exact ⟨r, List.mem_append_left _ hr, hprops⟩
  · intro w hw pid rid sid0 ids h q hq hqs hqt
    rcases (hmem q).mp hq with hq | hq
    · exact hI.depOrder w hw pid rid sid0 ids h q hq hqs hqt
    · rw [hq] at hqs hqt
      exact absurd ⟨hqs, hqt⟩ (hdep w hw pid rid sid0 ids h)
  · intro r hr hrt
    rcases (hmem r).mp hr with hr | hr
    · rcases hI.updHasCreate r hr hrt with ⟨q, hq, hprops⟩
      exact ⟨q, List.mem_append_left _ hq, hprops⟩
    · rcases hupd (by rw [hr] at hrt; exact hrt) with ⟨q, hq, hprops⟩
      refine ⟨q, List.mem_append_left _ hq, ?_, hprops.2⟩
      rw [hr]
      exact hprops.1

theorem sysInv_enqueueCreate {s : Sys} (hI : SysInv s) {sid : String}
    (h : uniqueIndexConflict s.db sid ReqType.create = false) :
    SysInv { s with db := s.db ++ [mkRow s.nextId ReqType.create sid],
                    nextId := s.nextId + 1 } := by
  apply sysInv_enqueue_aux hI ReqType.create sid
  · intro w hw pid rid sid0 ids hph hcon
    have hsid : sid = sid0 := hcon.1
    subst hsid
    rcases hI.claimedUpdWf w hw pid rid sid ids hph with ⟨r, hr, hrs, hrt⟩
    rcases hI.updHasCreate r hr hrt with ⟨q, hq, hqs, hqt⟩
    exact uniqueIndexConflict_false_no_create h q hq ⟨by rw [hqs, hrs], hqt⟩
  · intro hcon; cases hcon

theorem sysInv_enqueueUpdate {s : Sys} (hI : SysInv s) {sid : String}
    (h : s.db.any (fun r => (r.spreadsheet_id == sid) && (r.request_type == ReqType.create))
           = true) :
    SysInv { s with db := s.db ++ [mkRow s.nextId ReqType.update sid],
                    nextId := s.nextId + 1 } := by
  apply sysInv_enqueue_aux hI ReqType.update sid
  · intro w hw pid rid sid0 ids hph hcon
    exact ReqType.noConfusion hcon.2
  · intro _
    rw [List.any_eq_true] at h
    rcases h with ⟨r, hr, hprop⟩
    simp only [Bool.and_eq_true, beq_iff_eq] at hprop
    exact ⟨r, hr, hprop.1, hprop.2⟩

theorem get_set_cases (ws : List Phase) (w : Nat) (p : Phase) (j : Nat)
    (hj : j < (ws.set w p).length) :
    (j = w ∧ (ws.set w p).get ⟨j, hj⟩ = p) ∨
    (j ≠ w ∧ ∃ hj2 : j < ws.length, (ws.set w p).get ⟨j, hj⟩ = ws.get ⟨j, hj2⟩) := by
  by_cases hjw : j = w
  · subst hjw
    exact Or.inl ⟨rfl, List.get_set_eq hj⟩
  · refine Or.inr ⟨hjw, ?_, ?_⟩
    · rw [List.length_set] at hj
      exact hj
    · exact List.get_set_ne (fun hc => hjw hc.symm) hj

theorem sysInv_scan {s : Sys} (hI : SysInv s) {w : Nat} (hw : w < s.workers.length)
    {cursor : Nat} {r : Row}
    (hfound : firstNewRequest s.db (allLocks s.workers) cursor = some r) :
    SysInv { s with
      workers := s.workers.set w
        (Phase.scanned s.nextPid r.request_queue_id r.spreadsheet_id r.request_type),
      nextPid := s.nextPid + 1 } := by
  rcases firstNewRequest_some hfound with ⟨hrmem, hrnew, hrcur, hrunlock, hrmin⟩
  set p := Phase.scanned s.nextPid r.request_queue_id r.spreadsheet_id r.request_type with hp
  refine ⟨hI.nextIdPos, hI.idPos, hI.idLt, hI.idNodup, hI.noInProg, ?_, ?_, ?_, ?_, ?_, ?_,
    ?_, ?_, ?_, hI.updHasCreate⟩
  · intro rr hrr pp hpp
    exact Nat.lt_trans (hI.dbPidLt rr hrr pp hpp) (Nat.lt_succ_self _)
  · intro j hj pp hpp
    rcases get_set_cases s.workers w p j hj with ⟨hjw, hg⟩ | ⟨hjw, hj2, hg⟩
    · rw [hg] at hpp
      injection hpp with hpp
      rw [← hpp]
      exact Nat.lt_succ_self _
    · rw [hg] at hpp
      exact Nat.lt_trans (hI.phasePidLt j hj2 pp hpp) (Nat.lt_succ_self _)
  · intro j hj pp hpp rr hrr
    rcases get_set_cases s.workers w p j hj with ⟨hjw, hg⟩ | ⟨hjw, hj2, hg⟩
    · rw [hg] at hpp
      injection hpp with hpp
      rw [← hpp]
      intro hcon
      exact absurd rfl (Nat.ne_of_lt (hI.dbPidLt rr hrr s.nextPid hcon)).symm.elim
    · rw [hg] at hpp
      exact hI.phasePidFresh j hj2 pp hpp rr hrr
  · intro w1 hw1 w2 hw2 hne pp hp1 hp2
    rcases get_set_cases s.workers w p w1 hw1 with ⟨h1w, hg1⟩ | ⟨h1w, hj1, hg1⟩ <;>
      rcases get_set_cases s.workers w p w2 hw2 with ⟨h2w, hg2⟩ | ⟨h2w, hj2, hg2⟩
    · exact absurd (h1w.trans h2w.symm) hne
    · rw [hg1] at hp1
      injection hp1 with hp1
      rw [hg2] at hp2
      exact absurd rfl (Nat.ne_of_lt (hp1 ▸ hI.phasePidLt w2 hj2 pp hp2)).symm.elim
    · rw [hg2] at hp2
      injection hp2 with hp2
      rw [hg1] at hp1
      exact absurd rfl (Nat.ne_of_lt (hp2 ▸ hI.phasePidLt w1 hj1 pp hp1)).symm.elim
    · rw [hg1] at hp1
      rw [hg2] at hp2
      exact hI.phasePidDistinct w1 hj1 w2 hj2 hne pp hp1 hp2
  · intro w1 hw1 w2 hw2 hne rid h1 h2
    rcases get_set_cases s.workers w p w1 hw1 with ⟨h1w, hg1⟩ | ⟨h1w, hj1, hg1⟩ <;>
      rcases get_set_cases s.workers w p w2 hw2 with ⟨h2w, hg2⟩ | ⟨h2w, hj2, hg2⟩
    · exact absurd (h1w.trans h2w.symm) hne
    · rw [hg1] at h1
      simp only [hp, locksOf, List.mem_singleton] at h1
      rw [hg2] at h2
      rw [h1] at h2
      exact hrunlock (locksOf_mem_allLocks hj2 h2)
    · rw [hg2] at h2
      simp only [hp, locksOf, List.mem_singleton] at h2
      rw [hg1] at h1
      rw [h2] at h1
      exact hrunlock (locksOf_mem_allLocks hj1 h1)
    · rw [hg1] at h1
      rw [hg2] at h2
      exact hI.locksDisj w1 hj1 w2 hj2 hne rid h1 h2
  · intro j hj rid h
    rcases get_set_cases s.workers w p j hj with ⟨hjw, hg⟩ | ⟨hjw, hj2, hg⟩
    · rw [hg] at h
      simp only [hp, locksOf, List.mem_singleton] at h
      exact ⟨r, hrmem, h.symm, hrnew⟩
    · rw [hg] at h
      exact hI.locksNew j hj2 rid h
  · intro j hj pid rid sid rt h
    rcases get_set_cases s.workers w p j hj with ⟨hjw, hg⟩ | ⟨hjw, hj2, hg⟩
    · rw [hg] at h
      injection h with e1 e2 e3 e4
      exact ⟨r, hrmem, e2, e3, e4, hrnew⟩
    · rw [hg] at h
      exact hI.scannedWf j hj2 pid rid sid rt h
  · intro j hj pid rid sid ids h
    rcases get_set_cases s.workers w p j hj with ⟨hjw, hg⟩ | ⟨hjw, hj2, hg⟩
    · rw [hg] at h
      exact Phase.noConfusion h
    · rw [hg] at h
      exact hI.claimedUpdWf j hj2 pid rid sid ids h
  · intro j hj pid rid sid ids h
    rcases get_set_cases s.workers w p j hj with ⟨hjw, hg⟩ | ⟨hjw, hj2, hg⟩
    · rw [hg] at h
      exact Phase.noConfusion h
    · rw [hg] at h
      exact hI.depOrder j hj2 pid rid sid ids h

theorem db_id_unique {db : List Row} (hnodup : (db.map Row.request_queue_id).Nodup)
    {r1 r2 : Row} (h1 : r1 ∈ db) (h2 : r2 ∈ db)
    (hid : r1.request_queue_id = r2.request_queue_id) : r1 = r2 :=
  List.inj_on_of_nodup_map hnodup h1 h2 hid

theorem status_new_of_nonterminal {st : Status} (h1 : st.isTerminal = false)
    (h2 : st ≠ Status.inProgress) : st = Status.new := by
  cases st <;> simp_all [Status.isTerminal]

theorem sysInv_claimCreate {s : Sys} (hI : SysInv s) {w : Nat} (hw : w < s.workers.length)
    {pid rid : Nat} {sid : String}
    (hph : s.workers.get ⟨w, hw⟩ = Phase.scanned pid rid sid ReqType.create) :
    SysInv { s with workers := s.workers.set w (Phase.claimed pid rid sid ReqType.create [rid]) } := by
  set p := Phase.claimed pid rid sid ReqType.create [rid] with hp
  have hpidw : phasePid (s.workers.get ⟨w, hw⟩) = some pid := by rw [hph]; rfl
  have hlockw : ∀ rid0, rid0 ∈ locksOf p → rid0 ∈ locksOf (s.workers.get ⟨w, hw⟩) := by
    intro rid0 h0
    rw [hph]
    simp only [hp, locksOf] at h0 ⊢
    exact h0
  refine ⟨hI.nextIdPos, hI.idPos, hI.idLt, hI.idNodup, hI.noInProg, hI.dbPidLt, ?_, ?_, ?_, ?_,
    ?_, ?_, ?_, ?_, hI.updHasCreate⟩
  · intro j hj pp hpp
    rcases get_set_cases s.workers w p j hj with ⟨hjw, hg⟩ | ⟨hjw, hj2, hg⟩
    · rw [hg] at hpp
      injection hpp with hpp
      exact hI.phasePidLt w hw pp (by rw [hpidw, hpp])
    · rw [hg] at hpp
      exact hI.phasePidLt j hj2 pp hpp
  · intro j hj pp hpp
    rcases get_set_cases s.workers w p j hj with ⟨hjw, hg⟩ | ⟨hjw, hj2, hg⟩
    · rw [hg] at hpp
      injection hpp with hpp
      exact hI.phasePidFresh w hw pp (by rw [hpidw, hpp])
    · rw [hg] at hpp
      exact hI.phasePidFresh j hj2 pp hpp
  · intro w1 hw1 w2 hw2 hne pp hp1 hp2
    rcases get_set_cases s.workers w p w1 hw1 with ⟨h1w, hg1⟩ | ⟨h1w, hj1, hg1⟩ <;>
      rcases get_set_cases s.workers w p w2 hw2 with ⟨h2w, hg2⟩ | ⟨h2w, hj2, hg2⟩
    · exact absurd (h1w.trans h2w.symm) hne
    · rw [hg1] at hp1
      injection hp1 with hp1
      rw [hg2] at hp2
      exact hI.phasePidDistinct w hw w2 hj2 (h1w ▸ hne) pp
        (by rw [hpidw, hp1]) hp2
    · rw [hg2] at hp2
      injection hp2 with hp2
      rw [hg1] at hp1
      exact hI.phasePidDistinct w1 hj1 w hw (h2w ▸ hne) pp hp1
        (by rw [hpidw, hp2])
    · rw [hg1] at hp1
      rw [hg2] at hp2
      exact hI.phasePidDistinct w1 hj1 w2 hj2 hne pp hp1 hp2
  · intro w1 hw1 w2 hw2 hne rid0 h1 h2
    rcases get_set_cases s.workers w p w1 hw1 with ⟨h1w, hg1⟩ | ⟨h1w, hj1, hg1⟩ <;>
      rcases get_set_cases s.workers w p w2 hw2 with ⟨h2w, hg2⟩ | ⟨h2w, hj2, hg2⟩
    · exact absurd (h1w.trans h2w.symm) hne
    · rw [hg1] at h1
      rw [hg2] at h2
      exact hI.locksDisj w hw w2 hj2 (h1w ▸ hne) rid0 (hlockw rid0 h1) h2
    · rw [hg2] at h2
      rw [hg1] at h1
      exact hI.locksDisj w1 hj1 w hw (h2w ▸ hne) rid0 h1 (hlockw rid0 h2)
    · rw [hg1] at h1
      rw [hg2] at h2
      exact hI.locksDisj w1 hj1 w2 hj2 hne rid0 h1 h2
  · intro j hj rid0 h
    rcases get_set_cases s.workers w p j hj with ⟨hjw, hg⟩ | ⟨hjw, hj2, hg⟩
    · rw [hg] at h
      exact hI.locksNew w hw rid0 (hlockw rid0 h)
    · rw [hg] at h
      exact hI.locksNew j hj2 rid0 h
  · intro j hj pid0 rid0 sid0 rt0 h
    rcases get_set_cases s.workers w p j hj with ⟨hjw, hg⟩ | ⟨hjw, hj2, hg⟩
    · rw [hg] at h
      exact Phase.noConfusion h
    · rw [hg] at h
      exact hI.scannedWf j hj2 pid0 rid0 sid0 rt0 h
  · intro j hj pid0 rid0 sid0 ids0 h
    rcases get_set_cases s.workers w p j hj with ⟨hjw, hg⟩ | ⟨hjw, hj2, hg⟩
    · rw [hg] at h
      injection h with e1 e2 e3 e4 e5
      exact ReqType.noConfusion e4
    · rw [hg] at h
      exact hI.claimedUpdWf j hj2 pid0 rid0 sid0 ids0 h
  · intro j hj pid0 rid0 sid0 ids0 h
    rcases get_set_cases s.workers w p j hj with ⟨hjw, hg⟩ | ⟨hjw, hj2, hg⟩
    · rw [hg] at h
      injection h with e1 e2 e3 e4 e5
      exact ReqType.noConfusion e4
    · rw [hg] at h
      exact hI.depOrder j hj2 pid0 rid0 sid0 ids0 h

theorem sysInv_groupOk {s : Sys} (hI : SysInv s) {w : Nat} (hw : w < s.workers.length)
    {pid rid : Nat} {sid : String} {pr : List Row × List Nat}
    (hph : s.workers.get ⟨w, hw⟩ = Phase.scanned pid rid sid ReqType.update)
    (hprobe : probeCreate (claimView s.db pid [rid]) (othersLocks s.workers w) sid
                = Except.ok [])
    (hgrp : claimUpdateGroup (claimView s.db pid [rid]) (othersLocks s.workers w) pid sid
              = Except.ok pr) :
    SysInv { s with workers := s.workers.set w (Phase.claimed pid rid sid ReqType.update pr.2) } := by
  rcases claimUpdateGroup_ok hgrp with ⟨hfree, hids, hrows⟩
  rcases hI.scannedWf w hw pid rid sid ReqType.update hph with
    ⟨rr, hrrmem, hrrid, hrrsid, hrrtype, hrrnew⟩
  have hviewProbe := probeCreate_ok_nil_iff.mp hprobe
  have hmemIds : ∀ rid0, rid0 ∈ pr.2 →
      (∃ r0 ∈ s.db, r0.request_queue_id = rid0 ∧ r0.request_status = Status.new) ∧
        rid0 ∉ othersLocks s.workers w := by
    intro rid0 h0
    rw [hids] at h0
    rcases mem_groupIds.mp h0 with ⟨v, hv, hout, hvid⟩
    rcases mem_claimView_iff.mp hv with ⟨r0, hr0, hr0v⟩
    have hid0 : r0.request_queue_id = rid0 := by
      rw [← hvid, ← hr0v, claimViewRow_id]
    constructor
    · by_cases hcase : r0.request_queue_id = rid
      · have : r0 = rr := db_id_unique hI.idNodup hr0 hrrmem (by rw [hcase, hrrid])
        exact ⟨r0, hr0, hid0, by rw [this, hrrnew]⟩
      · have hnm : r0.request_queue_id ∉ [rid] := by
          rw [List.mem_singleton]; exact hcase
        have hvr : v = r0 := by rw [← hr0v, claimViewRow_of_not_mem _ _ _ hnm]
        rcases (outstandingUpdate_iff sid v).mp hout with ⟨_, _, hvnt⟩
        have : r0.request_status = Status.new := by
          apply status_new_of_nonterminal
          · rw [← hvr] at *; exact hvnt
          · exact hI.noInProg r0 hr0
        exact ⟨r0, hr0, hid0, this⟩
    · rw [← hvid]
      exact hfree v hv hout
  have hdep : ∀ q ∈ s.db, q.spreadsheet_id = sid → q.request_type = ReqType.create →
      q.request_status.isTerminal = true := by
    intro q hq hqs hqt
    by_cases hcase : q.request_queue_id = rid
    · have : q = rr := db_id_unique hI.idNodup hq hrrmem (by rw [hcase, hrrid])
      rw [this, hrrtype] at hqt
      exact ReqType.noConfusion hqt
    · have hnm : q.request_queue_id ∉ [rid] := by
        rw [List.mem_singleton]; exact hcase
      have hqv : claimViewRow pid [rid] q = q := claimViewRow_of_not_mem _ _ _ hnm
      have hqmem : q ∈ claimView s.db pid [rid] := by
        rw [← hqv] at *
        exact mem_claimView_iff.mpr ⟨q, hq, rfl⟩
      have hntc := hviewProbe q hqmem
      cases hterm : q.request_status.isTerminal
      · exact absurd ((nonTerminalCreate_iff sid q).mpr ⟨hqs, hqt, hterm⟩)
          (by rw [hntc]; intro hcon; cases hcon)
      · rfl
  set p := Phase.claimed pid rid sid ReqType.update pr.2 with hp
  have hpidw : phasePid (s.workers.get ⟨w, hw⟩) = some pid := by rw [hph]; rfl
  refine ⟨hI.nextIdPos, hI.idPos, hI.idLt, hI.idNodup, hI.noInProg, hI.dbPidLt, ?_, ?_, ?_, ?_,
    ?_, ?_, ?_, ?_, hI.updHasCreate⟩
  · intro j hj pp hpp
    rcases get_set_cases s.workers w p j hj with ⟨hjw, hg⟩ | ⟨hjw, hj2, hg⟩
    · rw [hg] at hpp
      injection hpp with hpp
      exact hI.phasePidLt w hw pp (by rw [hpidw, hpp])
    · rw [hg] at hpp
      exact hI.phasePidLt j hj2 pp hpp
  · intro j hj pp hpp
    rcases get_set_cases s.workers w p j hj with ⟨hjw, hg⟩ | ⟨hjw, hj2, hg⟩
    · rw [hg] at hpp
      injection hpp with hpp
      exact hI.phasePidFresh w hw pp (by rw [hpidw, hpp])
    · rw [hg] at hpp
      exact hI.phasePidFresh j hj2 pp hpp
  · intro w1 hw1 w2 hw2 hne pp hp1 hp2
    rcases get_set_cases s.workers w p w1 hw1 with ⟨h1w, hg1⟩ | ⟨h1w, hj1, hg1⟩ <;>
      rcases get_set_cases s.workers w p w2 hw2 with ⟨h2w, hg2⟩ | ⟨h2w, hj2, hg2⟩
    · exact absurd (h1w.trans h2w.symm) hne
    · rw [hg1] at hp1
      injection hp1 with hp1
      rw [hg2] at hp2
      exact hI.phasePidDistinct w hw w2 hj2 (h1w ▸ hne) pp (by rw [hpidw, hp1]) hp2
    · rw [hg2] at hp2
      injection hp2 with hp2
      rw [hg1] at hp1
      exact hI.phasePidDistinct w1 hj1 w hw (h2w ▸ hne) pp hp1 (by rw [hpidw, hp2])
    · rw [hg1] at hp1
      rw [hg2] at hp2
      exact hI.phasePidDistinct w1 hj1 w2 hj2 hne pp hp1 hp2
  · intro w1 hw1 w2 hw2 hne rid0 h1 h2
    rcases get_set_cases s.workers w p w1 hw1 with ⟨h1w, hg1⟩ | ⟨h1w, hj1, hg1⟩ <;>
      rcases get_set_cases s.workers w p w2 hw2 with ⟨h2w, hg2⟩ | ⟨h2w, hj2, hg2⟩
    · exact absurd (h1w.trans h2w.symm) hne
    · rw [hg1] at h1
      rw [hg2] at h2
      refine (hmemIds rid0 h1).2 ?_
      refine mem_othersLocks.mpr ⟨w2, hj2, ?_, h2⟩
      intro hcon
      exact (h1w ▸ hne) hcon.symm
    · rw [hg2] at h2
      rw [hg1] at h1
      refine (hmemIds rid0 h2).2 ?_
      refine mem_othersLocks.mpr ⟨w1, hj1, ?_, h1⟩
      intro hcon
      exact (h2w ▸ hne) hcon
    · rw [hg1] at h1
      rw [hg2] at h2
      exact hI.locksDisj w1 hj1 w2 hj2 hne rid0 h1 h2
  · intro j hj rid0 h
    rcases get_set_cases s.workers w p j hj with ⟨hjw, hg⟩ | ⟨hjw, hj2, hg⟩
    · rw [hg] at h
      exact (hmemIds rid0 h).1
    · rw [hg] at h
      exact hI.locksNew j hj2 rid0 h
  · intro j hj pid0 rid0 sid0 rt0 h
    rcases get_set_cases s.workers w p j hj with ⟨hjw, hg⟩ | ⟨hjw, hj2, hg⟩
    · rw [hg] at h
      exact Phase.noConfusion h
    · rw [hg] at h
      exact hI.scannedWf j hj2 pid0 rid0 sid0 rt0 h
  · intro j hj pid0 rid0 sid0 ids0 h
    rcases get_set_cases s.workers w p j hj with ⟨hjw, hg⟩ | ⟨hjw, hj2, hg⟩
    · rw [hg] at h
      injection h with e1 e2 e3 e4 e5
      exact ⟨rr, hrrmem, e3 ▸ hrrsid, hrrtype⟩
    · rw [hg] at h
      exact hI.claimedUpdWf j hj2 pid0 rid0 sid0 ids0 h
  · intro j hj pid0 rid0 sid0 ids0 h q hq hqs hqt
    rcases get_set_cases s.workers w p j hj with ⟨hjw, hg⟩ | ⟨hjw, hj2, hg⟩
    · rw [hg] at h
      injection h with e1 e2 e3 e4 e5
      exact hdep q hq (by rw [hqs, e3]) hqt
    · rw [hg] at h
      exact hI.depOrder j hj2 pid0 rid0 sid0 ids0 h q hq hqs hqt

theorem sysInv_settle {s : Sys} (hI : SysInv s) {w : Nat} (hw : w < s.workers.length)
    {pid rid : Nat} {sid : String} {rt : ReqType} {ids : List Nat} {ok : Bool}
    (hph : s.workers.get ⟨w, hw⟩ = Phase.claimed pid rid sid rt ids) :
    SysInv { s with db := settleRequests (claimView s.db pid ids) pid (settleStatus ok),
                    workers := s.workers.set w Phase.idle } := by
  set st := settleStatus ok with hst
  have hpidw : phasePid (s.workers.get ⟨w, hw⟩) = some pid := by rw [hph]; rfl
  have hlocksw : locksOf (s.workers.get ⟨w, hw⟩) = ids := by rw [hph]; rfl
  have hfreshw : ∀ r ∈ s.db, r.process_id ≠ some pid := hI.phasePidFresh w hw pid hpidw
  have hdb : settleRequests (claimView s.db pid ids) pid st = s.db.map (settleRow pid ids st) :=
    settle_claimView_eq_map s.db pid ids st
  have hmem : ∀ q : Row, q ∈ s.db.map (settleRow pid ids st) ↔
      ∃ r ∈ s.db, settleRow pid ids st r = q := by
    intro q
    rw [List.mem_map]
  have huntouched : ∀ r ∈ s.db, r.request_queue_id ∉ ids → settleRow pid ids st r = r := by
    intro r hr hnm
    exact settleRow_of_untouched pid ids st r hnm (hfreshw r hr)
  have hget : ∀ j (hj : j < (s.workers.set w Phase.idle).length),
      (s.workers.set w Phase.idle).get ⟨j, hj⟩ = Phase.idle ∨
      (j ≠ w ∧ ∃ hj2 : j < s.workers.length,
        (s.workers.set w Phase.idle).get ⟨j, hj⟩ = s.workers.get ⟨j, hj2⟩) := by
    intro j hj
    rcases get_set_cases s.workers w Phase.idle j hj with ⟨hjw, hg⟩ | ⟨hjw, hj2, hg⟩
    · exact Or.inl hg
    · exact Or.inr ⟨hjw, hj2, hg⟩
  have hlockNotIds : ∀ j (hj2 : j < s.workers.length), j ≠ w → ∀ rid0,
      rid0 ∈ locksOf (s.workers.get ⟨j, hj2⟩) → rid0 ∉ ids := by
    intro j hj2 hjw rid0 hmem0 hcon
    exact hI.locksDisj j hj2 w hw hjw rid0 hmem0 (by rw [hlocksw]; exact hcon)
  rw [hdb]
  refine ⟨hI.nextIdPos, ?_, ?_, ?_, ?_, ?_, ?_, ?_, ?_, ?_, ?_, ?_, ?_, ?_, ?_⟩
  · intro q hq
    rcases (hmem q).mp hq with ⟨r, hr, hrq⟩
    rw [← hrq, settleRow_id]
    exact hI.idPos r hr
  · intro q hq
    rcases (hmem q).mp hq with ⟨r, hr, hrq⟩
    rw [← hrq, settleRow_id]
    exact hI.idLt r hr
  · have : (s.db.map (settleRow pid ids st)).map Row.request_queue_id =
        s.db.map Row.request_queue_id := by
      rw [List.map_map]
      congr 1
      funext r
      simp only [Function.comp_apply]
      exact settleRow_id pid ids st r
    rw [this]
    exact hI.idNodup
  · intro q hq
    rcases (hmem q).mp hq with ⟨r, hr, hrq⟩
    rcases settleRow_status pid ids st r with hrs | hrs
    · rw [← hrq, hrs, hst]
      exact settleStatus_ne_inProgress ok
    · rw [← hrq, hrs]
      exact hI.noInProg r hr
  · intro q hq pp hpp
    rcases (hmem q).mp hq with ⟨r, hr, hrq⟩
    rcases settleRow_pid_cases pid ids st r with hrp | hrp
    · rw [← hrq, hrp] at hpp
      injection hpp with hpp
      rw [← hpp]
      exact hI.phasePidLt w hw pid hpidw
    · rw [← hrq, hrp] at hpp
      exact hI.dbPidLt r hr pp hpp
  · intro j hj pp hpp
    rcases hget j hj with hg | ⟨hjw, hj2, hg⟩
    · rw [hg] at hpp; cases hpp
    · rw [hg] at hpp
      exact hI.phasePidLt j hj2 pp hpp
  · intro j hj pp hpp q hq
    rcases hget j hj with hg | ⟨hjw, hj2, hg⟩
    · rw [hg] at hpp; cases hpp
    · rw [hg] at hpp
      rcases (hmem q).mp hq with ⟨r, hr, hrq⟩
      rcases settleRow_pid_cases pid ids st r with hrp | hrp
      · rw [← hrq, hrp]
        intro hcon
        injection hcon with hcon
        exact hI.phasePidDistinct j hj2 w hw hjw pp hpp (by rw [hpidw, hcon])
      · rw [← hrq, hrp]
        exact hI.phasePidFresh j hj2 pp hpp r hr
  · intro w1 hw1 w2 hw2 hne pp hp1 hp2
    rcases hget w1 hw1 with hg1 | ⟨h1w, hj1, hg1⟩
    · rw [hg1] at hp1; cases hp1
    · rcases hget w2 hw2 with hg2 | ⟨h2w, hj2, hg2⟩
      · rw [hg2] at hp2; cases hp2
      · rw [hg1] at hp1
        rw [hg2] at hp2
        exact hI.phasePidDistinct w1 hj1 w2 hj2 hne pp hp1 hp2
  · intro w1 hw1 w2 hw2 hne rid0 h1 h2
    rcases hget w1 hw1 with hg1 | ⟨h1w, hj1, hg1⟩
    · rw [hg1] at h1
      simp [locksOf] at h1
    · rcases hget w2 hw2 with hg2 | ⟨h2w, hj2, hg2⟩
      · rw [hg2] at h2
        simp [locksOf] at h2
      · rw [hg1] at h1
        rw [hg2] at h2
        exact hI.locksDisj w1 hj1 w2 hj2 hne rid0 h1 h2
  · intro j hj rid0 h
    rcases hget j hj with hg | ⟨hjw, hj2, hg⟩
    · rw [hg] at h
      simp [locksOf] at h
    · rw [hg] at h
      rcases hI.locksNew j hj2 rid0 h with ⟨r, hr, hrid, hrnew⟩
      have hnm : r.request_queue_id ∉ ids := by
        rw [hrid]
        exact hlockNotIds j hj2 hjw rid0 h
      exact ⟨r, (hmem r).mpr ⟨r, hr, huntouched r hr hnm⟩, hrid, hrnew⟩
  · intro j hj pid0 rid0 sid0 rt0 hph0
    rcases hget j hj with hg | ⟨hjw, hj2, hg⟩
    · rw [hg] at hph0
      exact Phase.noConfusion hph0
    · rw [hg] at hph0
      rcases hI.scannedWf j hj2 pid0 rid0 sid0 rt0 hph0 with ⟨r, hr, hrid, hrsid, hrty, hrnew⟩
      have hlock : rid0 ∈ locksOf (s.workers.get ⟨j, hj2⟩) := by
        rw [hph0]
        simp [locksOf]
      have hnm : r.request_queue_id ∉ ids := by
        rw [hrid]
        exact hlockNotIds j hj2 hjw rid0 hlock
      exact ⟨r, (hmem r).mpr ⟨r, hr, huntouched r hr hnm⟩, hrid, hrsid, hrty, hrnew⟩
  · intro j hj pid0 rid0 sid0 ids0 hph0
    rcases hget j hj with hg | ⟨hjw, hj2, hg⟩
    · rw [hg] at hph0
      exact Phase.noConfusion hph0
    · rw [hg] at hph0
      rcases hI.claimedUpdWf j hj2 pid0 rid0 sid0 ids0 hph0 with ⟨r, hr, hrsid, hrty⟩
      refine ⟨settleRow pid ids st r, (hmem _).mpr ⟨r, hr, rfl⟩, ?_, ?_⟩
      · rw [settleRow_sid]
        exact hrsid
      · rw [settleRow_type]
        exact hrty
  · intro j hj pid0 rid0 sid0 ids0 hph0 q hq hqs hqt
    rcases hget j hj with hg | ⟨hjw, hj2, hg⟩
    · rw [hg] at hph0
      exact Phase.noConfusion hph0
    · rw [hg] at hph0
      rcases (hmem q).mp hq with ⟨r, hr, hrq⟩
      have hrsid : r.spreadsheet_id = sid0 := by
        rw [← hrq, settleRow_sid] at hqs
        exact hqs
      have hrty : r.request_type = ReqType.create := by
        rw [← hrq, settleRow_type] at hqt
        exact hqt
      rcases settleRow_status pid ids st r with hrs | hrs
      · rw [← hrq, hrs, hst]
        exact settleStatus_terminal ok
      · rw [← hrq, hrs]
        exact hI.depOrder j hj2 pid0 rid0 sid0 ids0 hph0 r hr hrsid hrty
  · intro q hq hqt
    rcases (hmem q).mp hq with ⟨r, hr, hrq⟩
    have hrty : r.request_type = ReqType.update := by
      rw [← hrq, settleRow_type] at hqt
      exact hqt
    rcases hI.updHasCreate r hr hrty with ⟨c, hc, hcsid, hcty⟩
    refine ⟨settleRow pid ids st c, (hmem _).mpr ⟨c, hc, rfl⟩, ?_, ?_⟩
    · rw [settleRow_sid, ← hrq, settleRow_sid]
      exact hcsid
    · rw [settleRow_type]
      exact hcty

theorem sysInv_step {s t : Sys} (hI : SysInv s) (hS : Step s t) : SysInv t := by
  cases hS with
  | enqueueCreate sid h => exact sysInv_enqueueCreate hI h
  | enqueueUpdate sid h => exact sysInv_enqueueUpdate hI h
  | scan w hw cursor r hidle hfound => exact sysInv_scan hI hw hfound
  | claimCreate w hw pid rid sid hph => exact sysInv_claimCreate hI hw hph
  | validateFail w hw pid rid sid hph hprobe => exact sysInv_set_idle hI w
  | groupOk w hw pid rid sid pr hph hprobe hgrp => exact sysInv_groupOk hI hw hph hprobe hgrp
  | groupFail w hw pid rid sid hph hprobe hgrp => exact sysInv_set_idle hI w
  | settle w hw pid rid sid rt ids ok hph => exact sysInv_settle hI hw hph
  | crash w hw => exact sysInv_set_idle hI w

theorem reachable_sysInv {s : Sys} (h : Reachable s) : SysInv s := by
  induction h with
  | init n => exact sysInv_init n
  | step hr hs ih => exact sysInv_step ih hs

theorem firstNewRequest_eq_some {rows : List Row} {locked : List Nat} {r : Row} {cursor : Nat}
    (hnodup : (rows.map Row.request_queue_id).Nodup)
    (hr : r ∈ rows) (hnew : r.request_status = Status.new)
    (hcur : cursor < r.request_queue_id) (hunlock : r.request_queue_id ∉ locked)
    (hmin : ∀ q ∈ rows, q.request_status = Status.new → cursor < q.request_queue_id →
      q.request_queue_id ∉ locked → r.request_queue_id ≤ q.request_queue_id) :
    firstNewRequest rows locked cursor = some r := by
  unfold firstNewRequest
  apply minById_eq_some_of
  · exact List.mem_filter.mpr ⟨hr, (eligibleRow_iff _ _ _).mpr ⟨hnew, hcur, hunlock⟩⟩
  · intro q hq
    have hm := List.mem_filter.mp hq
    have he := (eligibleRow_iff _ _ _).mp hm.2
    exact hmin q hm.1 he.1 he.2.1 he.2.2
  · intro q hq hid
    exact db_id_unique hnodup (List.mem_filter.mp hq).1 hr hid

/-- C1: a dependent (update) request is never held in-progress for execution
while any primary (create) request of its target spreadsheet is non-terminal.
In every reachable state, whenever a worker holds a validated claim on the
dependent group of a spreadsheet, every create row of that spreadsheet in the
committed table is terminal; moreover the validation probe lets the dependent
proceed exactly when no non-terminal create row is visible at all — also when
such a row exists but is not locked by any other transaction. -/
theorem dependent_blocked_while_primary_nonterminal :
    (∀ s : Sys, Reachable s → ∀ w (hw : w < s.workers.length) pid rid sid ids,
      s.workers.get ⟨w, hw⟩ = Phase.claimed pid rid sid ReqType.update ids →
      ∀ q ∈ s.db, q.spreadsheet_id = sid → q.request_type = ReqType.create →
        q.request_status.isTerminal = true)
  ∧ (∀ rows (locked : List Nat) sid, probeCreate rows locked sid = Except.ok [] ↔
      ∀ r ∈ rows, nonTerminalCreate sid r = false) := by
  constructor
  · intro s hreach w hw pid rid sid ids hph q hq hqs hqt
    exact (reachable_sysInv hreach).depOrder w hw pid rid sid ids hph q hq hqs hqt
  · intro rows locked sid
    exact probeCreate_ok_nil_iff

/-- C2: in every reachable state at most one worker holds the lock that
carries a claim on a given request row; the locks held by any worker are
visible to every scan, and the searched UPDATE never returns a locked row, so
when two workers race on the same new row the loser skips it and can only
obtain a different candidate. -/
theorem claim_mutual_exclusion :
    (∀ s : Sys, Reachable s → ∀ i j (hi : i < s.workers.length) (hj : j < s.workers.length),
      i ≠ j → ∀ rid, rid ∈ locksOf (s.workers.get ⟨i, hi⟩) →
        rid ∉ locksOf (s.workers.get ⟨j, hj⟩))
  ∧ (∀ s : Sys, Reachable s → ∀ i (hi : i < s.workers.length) rid,
      rid ∈ locksOf (s.workers.get ⟨i, hi⟩) → rid ∈ allLocks s.workers)
  ∧ (∀ rows (locked : List Nat) cursor q, firstNewRequest rows locked cursor = some q →
      q.request_queue_id ∉ locked) := by
  refine ⟨?_, ?_, ?_⟩
  · intro s hreach i j hi hj hne rid h
    exact (reachable_sysInv hreach).locksDisj i hi j hj hne rid h
  · intro s _ i hi rid h
    exact locksOf_mem_allLocks hi h
  · intro rows locked cursor q h
    exact (firstNewRequest_some h).2.2.2.1

/-- C3: settlement finalizes the whole claim in one committed step.  For a
worker holding a claim (one create request, or a scanned dependent with its
whole group) in a reachable state, the settle transition exists, every
claimed row is in-progress with the worker's process identifier before the
commit, and after the settlement UPDATE every row carrying that process
identifier has exactly the outcome status — none remains in-progress — while
every other row is unchanged. -/
theorem settlement_finalizes_claim {s : Sys} (hreach : Reachable s) {w : Nat}
    (hw : w < s.workers.length) {pid rid : Nat} {sid : String} {rt : ReqType}
    {ids : List Nat}
    (hph : s.workers.get ⟨w, hw⟩ = Phase.claimed pid rid sid rt ids) (ok : Bool) :
    Step s { s with db := settleRequests (claimView s.db pid ids) pid (settleStatus ok),
                    workers := s.workers.set w Phase.idle }
    ∧ (∀ r ∈ claimView s.db pid ids, r.request_queue_id ∈ ids →
        r.request_status = Status.inProgress ∧ r.process_id = some pid)
    ∧ (∀ r ∈ settleRequests (claimView s.db pid ids) pid (settleStatus ok),
        r.request_queue_id ∈ ids →
          r.request_status = settleStatus ok ∧ r.process_id = some pid)
    ∧ (∀ r ∈ settleRequests (claimView s.db pid ids) pid (settleStatus ok),
        r.process_id = some pid →
          r.request_status = settleStatus ok ∧ r.request_status ≠ Status.inProgress)
    ∧ (∀ r ∈ settleRequests (claimView s.db pid ids) pid (settleStatus ok),
        r.request_queue_id ∉ ids → r ∈ s.db) := by
  have hI := reachable_sysInv hreach
  have hpidw : phasePid (s.workers.get ⟨w, hw⟩) = some pid := by rw [hph]; rfl
  have hfreshw : ∀ r ∈ s.db, r.process_id ≠ some pid := hI.phasePidFresh w hw pid hpidw
  have hdb : settleRequests (claimView s.db pid ids) pid (settleStatus ok)
      = s.db.map (settleRow pid ids (settleStatus ok)) := settle_claimView_eq_map _ _ _ _
  refine ⟨Step.settle s w hw pid rid sid rt ids ok hph, ?_, ?_, ?_, ?_⟩
  · intro r hr hrid
    rcases mem_claimView_iff.mp hr with ⟨r0, hr0, hr0r⟩
    have hid : r0.request_queue_id ∈ ids := by
      rw [← claimViewRow_id pid ids r0, hr0r]
      exact hrid
    rw [← hr0r, claimViewRow_of_mem _ _ _ hid]
    exact ⟨rfl, rfl⟩
  · intro r hr hrid
    rw [hdb] at hr
    rcases List.mem_map.mp hr with ⟨r0, hr0, hr0r⟩
    have hid : r0.request_queue_id ∈ ids := by
      rw [← settleRow_id pid ids (settleStatus ok) r0, hr0r]
      exact hrid
    rw [← hr0r, settleRow_of_mem _ _ _ _ hid]
    exact ⟨rfl, rfl⟩
  · intro r hr hrpid
    rw [hdb] at hr
    rcases List.mem_map.mp hr with ⟨r0, hr0, hr0r⟩
    by_cases hid : r0.request_queue_id ∈ ids
    · rw [← hr0r, settleRow_of_mem _ _ _ _ hid]
      exact ⟨rfl, settleStatus_ne_inProgress ok⟩
    · rw [← hr0r, settleRow_of_untouched _ _ _ _ hid (hfreshw r0 hr0)] at hrpid
      exact absurd hrpid (hfreshw r0 hr0)
  · intro r hr hrid
    rw [hdb] at hr
    rcases List.mem_map.mp hr with ⟨r0, hr0, hr0r⟩
    have hid : r0.request_queue_id ∉ ids := by
      rw [← settleRow_id pid ids (settleStatus ok) r0, hr0r]
      exact hrid
    rw [← hr0r, settleRow_of_untouched _ _ _ _ hid (hfreshw r0 hr0)]
    exact hr0

/-- C4: the group claim of a dependent request is all-or-nothing.  With a
validated scanned dependent in a reachable state: the group claim UPDATE
fails exactly when some member of the outstanding group is locked by a
concurrent claimant; on failure the rollback transition exists, the committed
table is untouched and every group member — the scanned row included — is
observably still new, and any scan whose line-in-the-sand has advanced to the
scanned row's id can no longer select that row; on success the claimed id set
contains every outstanding update request of the spreadsheet, the scanned row
included. -/
theorem group_claim_all_or_nothing {s : Sys} (hreach : Reachable s) {w : Nat}
    (hw : w < s.workers.length) {pid rid : Nat} {sid : String}
    (hph : s.workers.get ⟨w, hw⟩ = Phase.scanned pid rid sid ReqType.update)
    (hprobe : probeCreate (claimView s.db pid [rid]) (othersLocks s.workers w) sid
                = Except.ok []) :
    (claimUpdateGroup (claimView s.db pid [rid]) (othersLocks s.workers w) pid sid
        = Except.error () ↔
      ∃ g ∈ (claimView s.db pid [rid]).filter (outstandingUpdate sid),
        g.request_queue_id ∈ othersLocks s.workers w)
    ∧ (claimUpdateGroup (claimView s.db pid [rid]) (othersLocks s.workers w) pid sid
        = Except.error () →
        Step s { s with workers := s.workers.set w Phase.idle })
    ∧ (∀ g ∈ (claimView s.db pid [rid]).filter (outstandingUpdate sid),
        ∀ r ∈ s.db, r.request_queue_id = g.request_queue_id →
          r.request_status = Status.new)
    ∧ (∀ (locked : List Nat) cursor, rid ≤ cursor →
        ∀ q, firstNewRequest s.db locked cursor = some q → q.request_queue_id ≠ rid)
    ∧ (∀ pr, claimUpdateGroup (claimView s.db pid [rid]) (othersLocks s.workers w) pid sid
          = Except.ok pr →
        (∀ r ∈ s.db, r.spreadsheet_id = sid → r.request_type = ReqType.update →
          r.request_status.isTerminal = false → r.request_queue_id ∈ pr.2)
        ∧ rid ∈ pr.2) := by
  have hI := reachable_sysInv hreach
  rcases hI.scannedWf w hw pid rid sid ReqType.update hph with
    ⟨rr, hrrmem, hrrid, hrrsid, hrrtype, hrrnew⟩
  have hGnew : ∀ g ∈ (claimView s.db pid [rid]).filter (outstandingUpdate sid),
      ∀ r ∈ s.db, r.request_queue_id = g.request_queue_id →
        r.request_status = Status.new := by
    intro g hg r hr hrg
    have hgv := List.mem_filter.mp hg
    rcases mem_claimView_iff.mp hgv.1 with ⟨r0, hr0, hr0g⟩
    have hid0 : r0.request_queue_id = g.request_queue_id := by
      rw [← hr0g, claimViewRow_id]
    have hrr0 : r = r0 := db_id_unique hI.idNodup hr hr0 (by rw [hrg, hid0])
    by_cases hcase : r0.request_queue_id = rid
    · have : r0 = rr := db_id_unique hI.idNodup hr0 hrrmem (by rw [hcase, hrrid])
      rw [hrr0, this]
      exact hrrnew
    · have hnm : r0.request_queue_id ∉ [rid] := by
        rw [List.mem_singleton]; exact hcase
      have hgr0 : g = r0 := by rw [← hr0g, claimViewRow_of_not_mem _ _ _ hnm]
      rcases (outstandingUpdate_iff sid g).mp hgv.2 with ⟨_, _, hgnt⟩
      rw [hrr0]
      apply status_new_of_nonterminal
      · rw [hgr0] at hgnt
        exact hgnt
      · exact hI.noInProg r0 hr0
  refine ⟨?_, ?_, hGnew, ?_, ?_⟩
  · rw [claimUpdateGroup_error_iff]
    constructor
    · rintro ⟨r, hr, hout, hlock⟩
      exact ⟨r, List.mem_filter.mpr ⟨hr, hout⟩, hlock⟩
    · rintro ⟨g, hg, hlock⟩
      have hm := List.mem_filter.mp hg
      exact ⟨g, hm.1, hm.2, hlock⟩
  · intro hgrp
    exact Step.groupFail s w hw pid rid sid hph hprobe hgrp
  · intro locked cursor hcur q hq hcon
    have := (firstNewRequest_some hq).2.2.1
    rw [hcon] at this
    exact absurd (Nat.lt_of_le_of_lt hcur this) (Nat.lt_irrefl rid)
  · intro pr hgrp
    rcases claimUpdateGroup_ok hgrp with ⟨hfree, hids, hrows⟩
    have hcover : ∀ r ∈ s.db, r.spreadsheet_id = sid → r.request_type = ReqType.update →
        r.request_status.isTerminal = false → r.request_queue_id ∈ pr.2 := by
      intro r hr hrs hrt hrnt
      rw [hids]
      apply mem_groupIds.mpr
      refine ⟨claimViewRow pid [rid] r, mem_claimView_iff.mpr ⟨r, hr, rfl⟩, ?_,
        claimViewRow_id _ _ _⟩
      apply (outstandingUpdate_iff sid _).mpr
      refine ⟨by rw [claimViewRow_sid]; exact hrs, by rw [claimViewRow_type]; exact hrt, ?_⟩
      by_cases hcase : r.request_queue_id ∈ [rid]
      · rw [claimViewRow_of_mem _ _ _ hcase, setClaim_status]
        rfl
      · rw [claimViewRow_of_not_mem _ _ _ hcase]
        exact hrnt
    refine ⟨hcover, ?_⟩
    have := hcover rr hrrmem hrrsid hrrtype (by rw [hrrnew]; rfl)
    rw [hrrid] at this
    exact this

/-- C5: crash recovery.  If a worker holding any open claim in a reachable
state dies, the rollback transition exists, the committed table is exactly
what it was (every tentative write vanishes), every row it had locked is
observably still new and no longer locked by anyone, and a scan restarted
just below such a row's id finds precisely that row again — the request is
reclaimable by any worker and cannot be stranded in-progress. -/
theorem crash_recovery_reclaim {s : Sys} (hreach : Reachable s) {w : Nat}
    (hw : w < s.workers.length) {rid : Nat}
    (hlock : rid ∈ locksOf (s.workers.get ⟨w, hw⟩))
    {r : Row} (hr : r ∈ s.db) (hrid : r.request_queue_id = rid) :
    Step s { s with workers := s.workers.set w Phase.idle }
    ∧ ({ s with workers := s.workers.set w Phase.idle } : Sys).db = s.db
    ∧ r.request_status = Status.new
    ∧ rid ∉ allLocks (s.workers.set w Phase.idle)
    ∧ firstNewRequest s.db (allLocks (s.workers.set w Phase.idle)) (rid - 1) = some r := by
  have hI := reachable_sysInv hreach
  rcases hI.locksNew w hw rid hlock with ⟨r0, hr0, hr0id, hr0new⟩
  have hrr0 : r = r0 := db_id_unique hI.idNodup hr hr0 (by rw [hrid, hr0id])
  have hrnew : r.request_status = Status.new := by rw [hrr0]; exact hr0new
  have hpos : 0 < rid := by
    rw [← hrid]
    rw [hrr0]
    rw [← hr0id] at *
    exact hI.idPos r0 hr0
  have hunlock : rid ∉ allLocks (s.workers.set w Phase.idle) := by
    intro hcon
    rcases mem_allLocks.mp hcon with ⟨j, hj, hmem⟩
    rcases get_set_cases s.workers w Phase.idle j hj with ⟨hjw, hg⟩ | ⟨hjw, hj2, hg⟩
    · rw [hg] at hmem
      simp [locksOf] at hmem
    · rw [hg] at hmem
      exact hI.locksDisj j hj2 w hw hjw rid hmem hlock
  refine ⟨Step.crash s w hw, rfl, hrnew, hunlock, ?_⟩
  apply firstNewRequest_eq_some hI.idNodup hr hrnew
  · rw [hrid]
    exact Nat.sub_lt hpos Nat.one_pos
  · rw [hrid]
    exact hunlock
  · intro q hq hqnew hqcur hqunlock
    rw [hrid]
    rcases Nat.lt_or_ge (rid - 1) rid with _ | _
    · have : rid ≤ q.request_queue_id := by
        have h1 : rid - 1 < q.request_queue_id := hqcur
        rcases Nat.eq_sub_of_add_eq rfl with _
        exact Nat.le_of_pred_lt h1
      exact this
    · have h1 : rid - 1 < q.request_queue_id := hqcur
      exact Nat.le_of_pred_lt h1

/-- C6: one step of the claim scan is exactly the searched UPDATE.  When it
returns a row, that row is the request with the minimum request_queue_id
among rows in new status beyond the cursor that are not locked by another
transaction, it is tentatively set in-progress with the worker's process
identifier and returned; locked candidates are skipped without waiting; when
no eligible row exists the scan signals not found, and conversely. -/
theorem claim_scan_selects_first_eligible :
    (∀ rows (locked : List Nat) pid cursor r rows2,
      searchForWork rows locked pid cursor = some (r, rows2) →
      ∃ q ∈ rows, q.request_status = Status.new ∧ cursor < q.request_queue_id ∧
        q.request_queue_id ∉ locked ∧
        (∀ p ∈ rows, p.request_status = Status.new → cursor < p.request_queue_id →
          p.request_queue_id ∉ locked → q.request_queue_id ≤ p.request_queue_id) ∧
        r = setClaim pid q ∧ r.request_status = Status.inProgress ∧
        r.process_id = some pid ∧
        rows2 = updateRow rows q.request_queue_id (setClaim pid))
  ∧ (∀ rows (locked : List Nat) pid cursor,
      searchForWork rows locked pid cursor = none ↔
        ∀ p ∈ rows, ¬(p.request_status = Status.new ∧ cursor < p.request_queue_id ∧
          p.request_queue_id ∉ locked)) := by
  constructor
  · intro rows locked pid cursor r rows2 h
    unfold searchForWork at h
    cases hfind : firstNewRequest rows locked cursor with
    | none => rw [hfind] at h; cases h
    | some q =>
      rw [hfind] at h
      injection h with h
      injection h with h1 h2
      rcases firstNewRequest_some hfind with ⟨hqmem, hqnew, hqcur, hqunlock, hqmin⟩
      exact ⟨q, hqmem, hqnew, hqcur, hqunlock, hqmin, h1.symm,
        by rw [← h1]; rfl, by rw [← h1]; rfl, h2.symm⟩
  · intro rows locked pid cursor
    unfold searchForWork
    cases hfind : firstNewRequest rows locked cursor with
    | none =>
      simp only
      constructor
      · intro _ p hp hcon
        exact (firstNewRequest_none.mp hfind) p hp hcon
      · intro _
        trivial
    | some q =>
      simp only
      constructor
      · intro hcon
        cases hcon
      · intro h
        rcases firstNewRequest_some hfind with ⟨hqmem, hqnew, hqcur, hqunlock, _⟩
        exact absurd ⟨hqnew, hqcur, hqunlock⟩ (h q hqmem)

/-- C7: the sweep controller goes idle only off an exhausted search in a
sweep with zero successful claims; a successful claim makes the claim count
of the current sweep positive and it never decreases before the sweep ends;
a sweep that performed at least one claim ends in a reset of the
line-in-the-sand to the minimum and another full sweep in scanning mode, not
in idle; and leaving idle always starts a sweep from the minimum cursor. -/
theorem sweep_idle_only_after_empty_sweep :
    (∀ c e, c.mode = CtrlMode.scanning → (ctrlStep c e).mode = CtrlMode.idle →
      e = CtrlEv.exhausted ∧ c.claims = 0)
  ∧ (∀ c rid, c.mode = CtrlMode.scanning →
      ctrlStep c (CtrlEv.claimOk rid) = ⟨CtrlMode.scanning, rid, c.claims + 1⟩ ∧
      0 < (ctrlStep c (CtrlEv.claimOk rid)).claims)
  ∧ (∀ c rid, c.mode = CtrlMode.scanning →
      (ctrlStep c (CtrlEv.skip rid)).claims = c.claims ∧
      (ctrlStep c (CtrlEv.skip rid)).mode = CtrlMode.scanning)
  ∧ (∀ c, c.mode = CtrlMode.scanning → 0 < c.claims →
      ctrlStep c CtrlEv.exhausted = ⟨CtrlMode.scanning, 0, 0⟩)
  ∧ (∀ c e, c.mode = CtrlMode.idle → (ctrlStep c e).mode = CtrlMode.scanning →
      ctrlStep c e = ⟨CtrlMode.scanning, 0, 0⟩) := by
  refine ⟨?_, ?_, ?_, ?_, ?_⟩
  · intro c e hm hstep
    cases c with
    | mk mode cursor claims =>
      cases mode with
      | idle => cases hm
      | scanning =>
        cases e with
        | wake => cases hstep
        | claimOk rid => cases hstep
        | skip rid => cases hstep
        | exhausted =>
          refine ⟨rfl, ?_⟩
          by_cases hz : claims = 0
          · exact hz
          · rw [show ctrlStep ⟨CtrlMode.scanning, cursor, claims⟩ CtrlEv.exhausted
                = ⟨CtrlMode.scanning, 0, 0⟩ from by simp [ctrlStep, hz]] at hstep
            cases hstep
  · intro c rid hm
    cases c with
    | mk mode cursor claims =>
      cases mode with
      | idle => cases hm
      | scanning => exact ⟨rfl, Nat.succ_pos _⟩
  · intro c rid hm
    cases c with
    | mk mode cursor claims =>
      cases mode with
      | idle => cases hm
      | scanning => exact ⟨rfl, rfl⟩
  · intro c hm hz
    cases c with
    | mk mode cursor claims =>
      cases mode with
      | idle => cases hm
      | scanning =>
        simp [ctrlStep]
        intro hcon
        rw [hcon] at hz
        cases hz
  · intro c e hm hstep
    cases c with
    | mk mode cursor claims =>
      cases mode with
      | scanning => cases hm
      | idle =>
        cases e with
        | wake => rfl
        | claimOk rid => cases hstep
        | skip rid => cases hstep
        | exhausted => cases hstep

/-- C8 (refuting the terminal-permanence part on the code as written): the
process identifier is generated once per awakening, and the settlement UPDATE
filters only on process_id with no status filter.  In the second iteration of
one awakening, the already committed, complete request 1 still carries the
awakening's process identifier 7; settling the update request 2 claimed with
the same identifier to error also rewrites request 1, moving it out of the
terminal status complete into error. -/
theorem settlement_pid_reuse_breaks_terminal :
    (∃ r, r ∈ pidReuseDb ∧ r.request_queue_id = 1 ∧
      r.request_status = Status.complete ∧ r.request_status.isTerminal = true)
    ∧ (∃ r, r ∈ settleRequests (claimView pidReuseDb 7 [2]) 7 (settleStatus false) ∧
        r.request_queue_id = 1 ∧ r.request_status = Status.error) := by
  constructor
  · exact ⟨⟨1, Status.complete, ReqType.create, some 7, "s"⟩, by decide, rfl, rfl, rfl⟩
  · exact ⟨⟨1, Status.error, ReqType.create, some 7, "s"⟩, by decide, rfl, rfl⟩

/-- C9 (counterexample): the claim asserts the wakeup self-signal is issued
before subscribing, but in Priming the Pump the back-end executes LISTEN
first and the self NOTIFY afterwards: no notify precedes a listen in the
start-up sequence. -/
theorem priming_before_subscribe_refuted :
    ¬ ∃ i j : Fin startupSequence.length, i < j ∧
      startupSequence.get i = WakeAct.notify ∧ startupSequence.get j = WakeAct.listen := by
  decide

/-- C9 (amended): at process start the Wake Listener first subscribes with
LISTEN and then self-triggers the wakeup with NOTIFY; because the
subscription is already active, the priming self-signal is delivered on the
lossy channel, so start-up always checks for backlog regardless of any
notifications lost while the process was offline. -/
theorem priming_after_subscribe_delivers :
    (∃ i j : Fin startupSequence.length, i < j ∧
      startupSequence.get i = WakeAct.listen ∧ startupSequence.get j = WakeAct.notify)
    ∧ selfNotifyDelivered startupSequence = true := by
  decide

/-- C10: the partial unique index request_queue_01 covers every create row
regardless of its status, so a second create request for a spreadsheet is
rejected at insert even when the existing create row is terminal — the
uniqueness is over the target's whole history, not only over concurrent
non-terminal rows. -/
theorem unique_primary_over_whole_history (rows : List Row) (rid : Nat) (sid : String)
    {q : Row} (hq : q ∈ rows) (hqs : q.spreadsheet_id = sid)
    (hqt : q.request_type = ReqType.create) :
    uniqueIndexConflict rows sid ReqType.create = true ∧
    insertRequest rows rid sid ReqType.create = Except.error () := by
  have h : uniqueIndexConflict rows sid ReqType.create = true :=
    (uniqueIndexConflict_create_iff rows sid).mpr ⟨q, hq, hqs, hqt⟩
  refine ⟨h, ?_⟩
  unfold insertRequest
  rw [if_pos h]

theorem exSysScanned_reachable : Reachable exSysScanned := by
  have h0 : Reachable (initSys 1) := Reachable.init 1
  have h1 : Reachable (⟨[exRow1], [Phase.idle], 2, 0⟩ : Sys) :=
    Reachable.step h0 (Step.enqueueCreate (initSys 1) "t" (by decide))
  exact Reachable.step h1
    (Step.scan (⟨[exRow1], [Phase.idle], 2, 0⟩ : Sys) 0 (by decide) 0 exRow1
      (by decide) (by decide))

theorem exSysClaimed_reachable : Reachable exSysClaimed := by
  exact Reachable.step exSysScanned_reachable
    (Step.claimCreate exSysScanned 0 (by decide) 0 1 "t" (by decide))

theorem exSysBoth_reachable : Reachable exSysBoth := by
  have h4 : Reachable (⟨[exRow1done], [Phase.idle], 2, 1⟩ : Sys) :=
    Reachable.step exSysClaimed_reachable
      (Step.settle exSysClaimed 0 (by decide) 0 1 "t" ReqType.create [1] true (by decide))
  exact Reachable.step h4
    (Step.enqueueUpdate (⟨[exRow1done], [Phase.idle], 2, 1⟩ : Sys) "t" (by decide))

theorem exSysScanned2_reachable : Reachable exSysScanned2 := by
  exact Reachable.step exSysBoth_reachable
    (Step.scan exSysBoth 0 (by decide) 0 exRow2 (by decide) (by decide))

theorem exSysGroup_reachable : Reachable exSysGroup := by
  exact Reachable.step exSysScanned2_reachable
    (Step.groupOk exSysScanned2 0 (by decide) 1 2 "t"
      ([exRow1done, ⟨2, Status.inProgress, ReqType.update, some 1, "t"⟩], [2])
      (by decide) rfl rfl)

theorem exSysTwo_reachable : Reachable exSysTwo := by
  have h0 : Reachable (initSys 2) := Reachable.init 2
  have h1 : Reachable (⟨[exRow1], [Phase.idle, Phase.idle], 2, 0⟩ : Sys) :=
    Reachable.step h0 (Step.enqueueCreate (initSys 2) "t" (by decide))
  exact Reachable.step h1
    (Step.scan (⟨[exRow1], [Phase.idle, Phase.idle], 2, 0⟩ : Sys) 0 (by decide) 0 exRow1
      (by decide) (by decide))

/-- Witness: the C1 theorem evaluated at a reachable state in which the
worker holds the group claim on the update request of spreadsheet t. -/
theorem dependent_blocked_witness :
    Reachable exSysGroup
    ∧ exSysGroup.workers.get ⟨0, by decide⟩ = Phase.claimed 1 2 "t" ReqType.update [2]
    ∧ exRow1done ∈ exSysGroup.db
    ∧ exRow1done.spreadsheet_id = "t"
    ∧ exRow1done.request_type = ReqType.create
    ∧ exRow1done.request_status.isTerminal = true :=
  ⟨exSysGroup_reachable, rfl, by decide, rfl, rfl,
    dependent_blocked_while_primary_nonterminal.1 exSysGroup exSysGroup_reachable 0 (by decide)
      1 2 "t" [2] rfl exRow1done (by decide) rfl rfl⟩

/-- Witness: the C2 theorem evaluated at a reachable two-worker state in
which the first worker holds the lock on row 1. -/
theorem claim_mutual_exclusion_witness :
    Reachable exSysTwo
    ∧ (0 : Nat) ≠ 1
    ∧ 1 ∈ locksOf (exSysTwo.workers.get ⟨0, by decide⟩)
    ∧ 1 ∉ locksOf (exSysTwo.workers.get ⟨1, by decide⟩)
    ∧ 1 ∈ allLocks exSysTwo.workers
    ∧ firstNewRequest [exRow1, exRow2] [1] 0 = some exRow2
    ∧ exRow2.request_queue_id ∉ ([1] : List Nat) :=
  ⟨exSysTwo_reachable, by decide, by decide,
    claim_mutual_exclusion.1 exSysTwo exSysTwo_reachable 0 1 (by decide) (by decide)
      (by decide) 1 (by decide),
    claim_mutual_exclusion.2.1 exSysTwo exSysTwo_reachable 0 (by decide) 1 (by decide),
    by decide,
    claim_mutual_exclusion.2.2 [exRow1, exRow2] [1] 0 exRow2 (by decide)⟩

/-- Witness: the C3 theorem evaluated at the reachable state in which the
worker holds the claim on the create request, settling with success. -/
theorem settlement_finalizes_witness :
    Reachable exSysClaimed
    ∧ exSysClaimed.workers.get ⟨0, by decide⟩ = Phase.claimed 0 1 "t" ReqType.create [1]
    ∧ (Step exSysClaimed
        { exSysClaimed with
          db := settleRequests (claimView exSysClaimed.db 0 [1]) 0 (settleStatus true),
          workers := exSysClaimed.workers.set 0 Phase.idle }
    ∧ (∀ r ∈ claimView exSysClaimed.db 0 [1], r.request_queue_id ∈ [1] →
        r.request_status = Status.inProgress ∧ r.process_id = some 0)
    ∧ (∀ r ∈ settleRequests (claimView exSysClaimed.db 0 [1]) 0 (settleStatus true),
        r.request_queue_id ∈ [1] →
          r.request_status = settleStatus true ∧ r.process_id = some 0)
    ∧ (∀ r ∈ settleRequests (claimView exSysClaimed.db 0 [1]) 0 (settleStatus true),
        r.process_id = some 0 →
          r.request_status = settleStatus true ∧ r.request_status ≠ Status.inProgress)
    ∧ (∀ r ∈ settleRequests (claimView exSysClaimed.db 0 [1]) 0 (settleStatus true),
        r.request_queue_id ∉ [1] → r ∈ exSysClaimed.db)) :=
  ⟨exSysClaimed_reachable, rfl,
    settlement_finalizes_claim exSysClaimed_reachable (by decide)
      (show exSysClaimed.workers.get ⟨0, by decide⟩
          = Phase.claimed 0 1 "t" ReqType.create [1] from rfl) true⟩

/-- Witness: the C4 theorem evaluated at the reachable state in which the
worker has scanned the update request of the settled spreadsheet. -/
theorem group_claim_witness :
    Reachable exSysScanned2
    ∧ exSysScanned2.workers.get ⟨0, by decide⟩ = Phase.scanned 1 2 "t" ReqType.update
    ∧ probeCreate (claimView exSysScanned2.db 1 [2]) (othersLocks exSysScanned2.workers 0) "t"
        = Except.ok []
    ∧ ((claimUpdateGroup (claimView exSysScanned2.db 1 [2])
          (othersLocks exSysScanned2.workers 0) 1 "t" = Except.error () ↔
        ∃ g ∈ (claimView exSysScanned2.db 1 [2]).filter (outstandingUpdate "t"),
          g.request_queue_id ∈ othersLocks exSysScanned2.workers 0)
    ∧ (claimUpdateGroup (claimView exSysScanned2.db 1 [2])
          (othersLocks exSysScanned2.workers 0) 1 "t" = Except.error () →
        Step exSysScanned2
          { exSysScanned2 with workers := exSysScanned2.workers.set 0 Phase.idle })
    ∧ (∀ g ∈ (claimView exSysScanned2.db 1 [2]).filter (outstandingUpdate "t"),
        ∀ r ∈ exSysScanned2.db, r.request_queue_id = g.request_queue_id →
          r.request_status = Status.new)
    ∧ (∀ (locked : List Nat) cursor, 2 ≤ cursor →
        ∀ q, firstNewRequest exSysScanned2.db locked cursor = some q →
          q.request_queue_id ≠ 2)
    ∧ (∀ pr, claimUpdateGroup (claimView exSysScanned2.db 1 [2])
          (othersLocks exSysScanned2.workers 0) 1 "t" = Except.ok pr →
        (∀ r ∈ exSysScanned2.db, r.spreadsheet_id = "t" → r.request_type = ReqType.update →
          r.request_status.isTerminal = false → r.request_queue_id ∈ pr.2)
        ∧ 2 ∈ pr.2)) :=
  ⟨exSysScanned2_reachable, rfl, rfl,
    group_claim_all_or_nothing exSysScanned2_reachable (by decide) rfl rfl⟩

/-- Witness: the C5 theorem evaluated at the reachable state in which the
worker holds the tentative claim on the create request and dies. -/
theorem crash_recovery_witness :
    Reachable exSysScanned
    ∧ 1 ∈ locksOf (exSysScanned.workers.get ⟨0, by decide⟩)
    ∧ exRow1 ∈ exSysScanned.db
    ∧ exRow1.request_queue_id = 1
    ∧ (Step exSysScanned
        { exSysScanned with workers := exSysScanned.workers.set 0 Phase.idle }
    ∧ ({ exSysScanned with workers := exSysScanned.workers.set 0 Phase.idle } : Sys).db
        = exSysScanned.db
    ∧ exRow1.request_status = Status.new
    ∧ 1 ∉ allLocks (exSysScanned.workers.set 0 Phase.idle)
    ∧ firstNewRequest exSysScanned.db (allLocks (exSysScanned.workers.set 0 Phase.idle))
        (1 - 1) = some exRow1) :=
  ⟨exSysScanned_reachable, by decide, by decide, rfl,
    crash_recovery_reclaim exSysScanned_reachable (by decide) (by decide) (by decide) rfl⟩

/-- Witness: the C6 theorem evaluated on a one-row table with no locks. -/
theorem claim_scan_witness :
    searchForWork [exRow1] [] 5 0 = some (setClaim 5 exRow1, updateRow [exRow1] 1 (setClaim 5))
    ∧ (∃ q ∈ [exRow1], q.request_status = Status.new ∧ 0 < q.request_queue_id ∧
        q.request_queue_id ∉ ([] : List Nat) ∧
        (∀ p ∈ [exRow1], p.request_status = Status.new → 0 < p.request_queue_id →
          p.request_queue_id ∉ ([] : List Nat) → q.request_queue_id ≤ p.request_queue_id) ∧
        setClaim 5 exRow1 = setClaim 5 q ∧
        (setClaim 5 exRow1).request_status = Status.inProgress ∧
        (setClaim 5 exRow1).process_id = some 5 ∧
        updateRow [exRow1] 1 (setClaim 5) = updateRow [exRow1] q.request_queue_id (setClaim 5)) :=
  ⟨rfl, claim_scan_selects_first_eligible.1 [exRow1] [] 5 0 (setClaim 5 exRow1)
      (updateRow [exRow1] 1 (setClaim 5)) rfl⟩

/-- Witness: the C7 theorem evaluated at concrete controller states, one at
the end of an empty sweep and one at the end of a sweep with two claims. -/
theorem sweep_idle_witness :
    (⟨CtrlMode.scanning, 3, 0⟩ : Ctrl).mode = CtrlMode.scanning
    ∧ (ctrlStep ⟨CtrlMode.scanning, 3, 0⟩ CtrlEv.exhausted).mode = CtrlMode.idle
    ∧ (CtrlEv.exhausted = CtrlEv.exhausted ∧ (⟨CtrlMode.scanning, 3, 0⟩ : Ctrl).claims = 0)
    ∧ ((⟨CtrlMode.scanning, 5, 2⟩ : Ctrl).mode = CtrlMode.scanning
        ∧ 0 < (⟨CtrlMode.scanning, 5, 2⟩ : Ctrl).claims)
    ∧ ctrlStep ⟨CtrlMode.scanning, 5, 2⟩ CtrlEv.exhausted = ⟨CtrlMode.scanning, 0, 0⟩ :=
  ⟨rfl, rfl,
    sweep_idle_only_after_empty_sweep.1 ⟨CtrlMode.scanning, 3, 0⟩ CtrlEv.exhausted rfl rfl,
    ⟨rfl, by decide⟩,
    sweep_idle_only_after_empty_sweep.2.2.2.1 ⟨CtrlMode.scanning, 5, 2⟩ rfl (by decide)⟩

/-- Witness: the C10 theorem evaluated on a table holding only the settled,
terminal create row of spreadsheet t. -/
theorem unique_primary_witness :
    exRow1done ∈ [exRow1done]
    ∧ exRow1done.spreadsheet_id = "t"
    ∧ exRow1done.request_type = ReqType.create
    ∧ exRow1done.request_status.isTerminal = true
    ∧ (uniqueIndexConflict [exRow1done] "t" ReqType.create = true ∧
        insertRequest [exRow1done] 9 "t" ReqType.create = Except.error ()) :=
  ⟨by decide, rfl, rfl, rfl,
    @unique_primary_over_whole_history [exRow1done] 9 "t" exRow1done (by decide) rfl rfl⟩
